import Mathlib

/-!
# Verification of the uxas matching engine

A shallow embedding, in Lean 4, of the string-matching engine of the
uxas repository, together with theorems settling the specification
claims about it.

The embedding covers:

* `src/modules/engine/matcher.py` — tokenisation, token similarity (including
  a faithful model of `difflib.SequenceMatcher.ratio` for short, junk-free
  strings), IDF corpus statistics, directional and symmetric scoring, the
  candidate prefilter, and `best_match`;
* `src/modules/engine/csv_processor.py` — the conflict resolver
  `MatchingWorker._resolve_candidate_conflicts`;
* `src/modules/engine/processor_utils.py` — `process_single_match`.

Conventions:

* Python floats are modelled as exact rationals (`ℚ`).  `math.log` is
  real-valued, so the development is parametric in a function
  `logFn : ℚ → ℚ`: every theorem below holds for an arbitrary `logFn`,
  in particular for any rational approximation of the real logarithm.
* Python dicts of strings are modelled as association lists with
  first-match lookup and replace-or-append update, which matches dict
  semantics for the operations the code performs.
* CSV cell values are either strings or numbers (`CellVal`), since the
  row processor stores the similarity score as a float and every other
  cell as a string.
* Character classes (`\w`, `str.lower`, `str.strip`) are modelled over
  ASCII; Python's classes additionally cover non-ASCII word characters,
  which does not affect any of the properties proved here since the whole
  embedded pipeline uses the same tokeniser and strip consistently.
-/

namespace Uxas

/-! ## Basic string utilities

Python's `str.lower`, `\w+` tokenisation, `str.strip`, substring tests and
common-prefix length, implemented over character lists so that they are
structurally computable. -/

/-- ASCII lowercasing of one character (models `str.lower` on the
alphabets the matcher is used with). -/
def charLower (c : Char) : Char :=
  if 'A' ≤ c ∧ c ≤ 'Z' then Char.ofNat (c.toNat + 32) else c

/-- A word character in the sense of the regex `\w`: alphanumeric or
underscore. -/
def isWordChar (c : Char) : Bool :=
  c.isAlphanum || c = '_'

/-- Split a character list into maximal runs of word characters
(the regex `re.findall(r"\w+", s)`). -/
def wordRuns : List Char → List (List Char)
  | [] => []
  | c :: cs =>
    let rest := wordRuns cs
    if isWordChar c then
      match cs with
      | [] => [[c]]
      | c' :: _ =>
        if isWordChar c' then
          match rest with
          | [] => [[c]]
          | r :: rs => (c :: r) :: rs
        else [c] :: rest
    else rest

/-- `tokenize(text)`: words (alphanumeric runs) of the lowercased text.
`None` inputs are normalised to `""` by the Python code before this point. -/
def tokenize (s : String) : List String :=
  (wordRuns (s.toList.map charLower)).map List.asString

/-- Python's `str.strip` (ASCII whitespace). -/
def strip (s : String) : String :=
  (((s.toList.dropWhile Char.isWhitespace).reverse.dropWhile Char.isWhitespace).reverse).asString

/-- Length of the longest common prefix of two character lists
(`zip` + count of initial equal pairs in the Python prefilter). -/
def commonPrefixLen : List Char → List Char → Nat
  | a :: as, b :: bs => if a = b then commonPrefixLen as bs + 1 else 0
  | _, _ => 0

/-- `a in b` for Python strings: `a` occurs contiguously in `b`. -/
def substrOf (a b : String) : Bool :=
  (List.range (b.length + 1)).any (fun i => a.toList.isPrefixOf (b.toList.drop i))

/-! ## Association-list dictionaries -/

/-- `d.get(k)` — first binding wins (keys are unique in the rows the
engine builds, so this is exactly Python dict lookup). -/
def dictGet {κ α : Type} [DecidableEq κ] (m : List (κ × α)) (k : κ) : Option α :=
  (m.find? (fun p => p.1 = k)).map (·.2)

/-- `k in d`. -/
def dictContains {κ α : Type} [DecidableEq κ] (m : List (κ × α)) (k : κ) : Bool :=
  (m.find? (fun p => p.1 = k)).isSome

/-- `d[k] = v`: replace the binding in place if the key is present,
otherwise append it (Python dicts preserve insertion order). -/
def dictSet {κ α : Type} [DecidableEq κ] (m : List (κ × α)) (k : κ) (v : α) : List (κ × α) :=
  if dictContains m k then m.map (fun p => if p.1 = k then (k, v) else p)
  else m ++ [(k, v)]

/-- A CSV cell as the engine sees it: every cell read from a file is a
string, and the row processor additionally stores the similarity score
as a float. -/
inductive CellVal : Type where
  | str (s : String)
  | num (q : ℚ)
deriving DecidableEq

/-- A result row: a Python dict from column name to cell value. -/
abbrev Row : Type := List (String × CellVal)

/-- Digit run to its value. -/
def digitsVal (l : List Char) : Nat :=
  l.foldl (fun a c => a * 10 + (c.toNat - 48)) 0

/-- Control-flow part of decimal parsing: sign, integer value, fractional
value and number of fractional digits.  Kept in `Bool`/`ℕ` so that concrete
instances are decidable. -/
def parseDecParts (s : String) : Option (Bool × ℕ × ℕ × ℕ) :=
  let cs := s.toList
  let neg : Bool := cs.head? = some '-'
  let body := if cs.head? = some '-' ∨ cs.head? = some '+' then cs.tail else cs
  let intPart := body.takeWhile Char.isDigit
  let rest := body.dropWhile Char.isDigit
  if rest = [] then
    if intPart = [] then none else some (neg, digitsVal intPart, 0, 0)
  else if rest.head? = some '.' ∧ rest.tail.all Char.isDigit ∧ ¬(intPart = [] ∧ rest.tail = []) then
    some (neg, digitsVal intPart, digitsVal rest.tail, rest.tail.length)
  else none

/-- Python's `float(s)` on the decimal literals the engine writes
(optional sign, digits, optional fractional part); other strings are
treated as unparseable, which the resolver turns into `0.0` via its
`except` clause. -/
def parseDec (s : String) : Option ℚ :=
  (parseDecParts s).map
    (fun p => (if p.1 then (-1 : ℚ) else 1) * ((p.2.1 : ℚ) + (p.2.2.1 : ℚ) / ((10 : ℕ) ^ p.2.2.2 : ℕ)))

/-- Round half to even at integer precision (Python's `round`). -/
def roundHalfEven (q : ℚ) : ℤ :=
  if q - ⌊q⌋ < 1/2 then ⌊q⌋
  else if (1:ℚ)/2 < q - ⌊q⌋ then ⌊q⌋ + 1
  else if ⌊q⌋ % 2 = 0 then ⌊q⌋ else ⌊q⌋ + 1

/-- Python's `round(x, 4)`. -/
def round4 (q : ℚ) : ℚ :=
  (roundHalfEven (q * 10000) : ℚ) / 10000

/-! ## `src/modules/engine/matcher.py` -/

/-- `SIM_THRESHOLD`. -/
def simThreshold : ℚ := 1/2

/-- `TOKEN_SIM_THRESHOLD`. -/
def tokenSimThreshold : ℚ := 8/10

/-- `NOISE_PENALTY_STRENGTH`. -/
def noisePenaltyStrength : ℚ := 7/10

/-- `POSITION_DECAY`. -/
def positionDecay : ℚ := 3/10

/-- `MAX_HEAVY_CANDIDATES`. -/
def maxHeavyCandidates : Nat := 64

/-- `STOPWORDS`. -/
def stopwords : List String :=
  ["ltd", "llc", "ooo", "zao", "ao", "company", "co", "inc", "corp",
   "corporation", "the", "and"]

/-- `shift_weight(pos_a, pos_b, max_len)`. -/
def shiftWeight (posA posB maxLen : Nat) : ℚ :=
  if maxLen ≤ 0 then 1
  else 1/2 + 1/2 * max 0 (1 - |(posA : ℚ) - (posB : ℚ)| / (maxLen : ℚ))

/-! ### `difflib.SequenceMatcher.ratio`

For the token-sized strings the matcher compares, `SequenceMatcher` has no
junk elements (autojunk needs `len(b) >= 200`), so `find_longest_match`
returns the longest common substring of the current window, breaking ties
by the smallest start in `a` and then the smallest start in `b`, and
`ratio` is `2 * M / (len(a) + len(b))` where `M` is the total size of the
recursively collected matching blocks. -/

/-- Longest-common-run length of `a[i:ahi]` and `b[j:bhi]` starting at
`(i, j)`. -/
def runLen (a b : List Char) (ahi bhi i j : Nat) : Nat :=
  commonPrefixLen ((a.drop i).take (ahi - i)) ((b.drop j).take (bhi - j))

/-- `SequenceMatcher.find_longest_match` on the window
`a[alo:ahi]`, `b[blo:bhi]` (junk-free case): the triple
`(i, j, size)` of the longest match, ties broken towards the smallest
`i`, then the smallest `j`. -/
def findLongestMatch (a b : List Char) (alo ahi blo bhi : Nat) : Nat × Nat × Nat :=
  let pairs := (List.range' alo (ahi - alo)).flatMap
    (fun i => (List.range' blo (bhi - blo)).map (fun j => (i, j)))
  pairs.foldl
    (fun best p =>
      let k := runLen a b ahi bhi p.1 p.2
      if best.2.2 < k then (p.1, p.2, k) else best)
    (alo, blo, 0)

/-- Total size of all matching blocks (`get_matching_blocks`), written with
explicit fuel; `matchTotal` below instantiates the fuel so that it never
runs out. -/
def matchTotalFuel (a b : List Char) : Nat → Nat → Nat → Nat → Nat → Nat
  | 0, _, _, _, _ => 0
  | fuel + 1, alo, ahi, blo, bhi =>
    let m := findLongestMatch a b alo ahi blo bhi
    if m.2.2 = 0 then 0
    else
      matchTotalFuel a b fuel alo m.1 blo m.2.1 + m.2.2 +
        matchTotalFuel a b fuel (m.1 + m.2.2) ahi (m.2.1 + m.2.2) bhi

/-- Total matched size between `a` and `b`.  Each recursion level removes at
least one window element, so `|a| + |b| + 1` steps of fuel always suffice. -/
def matchTotal (a b : List Char) : Nat :=
  matchTotalFuel a b (a.length + b.length + 1) 0 a.length 0 b.length

/-- `SequenceMatcher(None, a, b).ratio()`. -/
def seqRatio (a b : String) : ℚ :=
  if a.length + b.length = 0 then 1
  else (2 * matchTotal a.toList b.toList : ℚ) / ((a.length + b.length : ℕ) : ℚ)

/-- `_token_similarity(a, b)` (the `lru_cache` is a performance-only
memoisation of this pure function). -/
def tokenSimilarity (a b : String) : ℚ :=
  if a = "" ∨ b = "" then 0
  else if a = b then 1
  else if a.toList.isPrefixOf b.toList ∨ b.toList.isPrefixOf a.toList
      ∨ substrOf a b ∨ substrOf b a then 9/10
  else
    let maxLen := max a.length b.length
    if maxLen = 0 then 0
    else if ((maxLen : ℚ) - |(a.length : ℚ) - (b.length : ℚ)|) / (maxLen : ℚ) < tokenSimThreshold then 0
    else max 0 (min 1 (seqRatio a b))

/-! ### Corpus statistics -/

/-- `_compute_document_frequencies(candidates_tokens)`: document frequency
per token plus the number of non-empty candidate token sequences. -/
def computeDocFreqs (candsTokens : List (List String)) : List (String × Nat) × Nat :=
  candsTokens.foldl
    (fun acc tokens =>
      if tokens = [] then acc
      else
        (tokens.dedup.foldl (fun d t => dictSet d t ((dictGet d t).getD 0 + 1)) acc.1,
         acc.2 + 1))
    ([], 0)

/-- `_token_idf(token, df, doc_count)`, parametric in the log function. -/
def tokenIdf (logFn : ℚ → ℚ) (tok : String) (df : List (String × Nat)) (docCount : Nat) : ℚ :=
  if docCount ≤ 0 then 1
  else
    let dfT := (dictGet df tok).getD 1
    let baseIdf := logFn (1 + (docCount : ℚ) / (dfT : ℚ))
    if tok ∈ stopwords then max (baseIdf * (1/10)) (1/100)
    else baseIdf

/-- `_token_position_weight(index, length)`. -/
def tokenPositionWeight (index length : Nat) : ℚ :=
  if length ≤ 1 ∨ positionDecay ≤ 0 then 1
  else 1 - positionDecay * ((index : ℚ) / ((length : ℚ) - 1))

/-! ### Directional scorer and symmetric combiner -/

/-- Best target for one source token: fold over the enumerated target
tokens keeping the strictly best `token_similarity * positional_alignment`
contribution among targets with similarity `≥ TOKEN_SIM_THRESHOLD`. -/
def bestTargetFor (srcTok : String) (i : Nat) (tgt : List String) (maxLen : Nat) :
    Option Nat × ℚ :=
  tgt.enum.foldl
    (fun best p =>
      let sim := tokenSimilarity srcTok p.2
      if sim < tokenSimThreshold then best
      else
        let combined := sim * shiftWeight i p.1 maxLen
        if best.2 < combined then (some p.1, combined) else best)
    (none, 0)

/-- `_directional_similarity(source_tokens, target_tokens, df, doc_count)`. -/
def directionalSimilarity (logFn : ℚ → ℚ) (src tgt : List String)
    (df : List (String × Nat)) (docCount : Nat) : ℚ :=
  if src = [] ∨ tgt = [] then 0
  else
    let srcLen := src.length
    let tgtLen := tgt.length
    let srcWeights := src.enum.map
      (fun p => tokenIdf logFn p.2 df docCount * tokenPositionWeight p.1 srcLen)
    let totalWeight := srcWeights.sum
    if totalWeight ≤ 0 then 0
    else
      let scan := (src.enum.zip srcWeights).foldl
        (fun (acc : List Nat × ℚ) p =>
          let found := bestTargetFor p.1.2 p.1.1 tgt (max srcLen tgtLen)
          match found.1 with
          | some j => (acc.1 ++ [j], acc.2 + p.2 * found.2)
          | none => acc)
        ([], 0)
      let usedIdx := scan.1
      let matchedWeight := scan.2
      let coverage := matchedWeight / totalWeight
      let noisePenalty :=
        if 0 < noisePenaltyStrength ∧ 0 < tgtLen then
          let extraWeights := tgt.enum.filterMap
            (fun p =>
              if p.1 ∈ usedIdx then none
              else some (tokenIdf logFn p.2 df docCount * tokenPositionWeight p.1 tgtLen))
          let totalExtra := extraWeights.sum
          if 0 < totalExtra ∧ 0 < matchedWeight then
            let noiseShare := totalExtra / (matchedWeight + totalExtra)
            let lengthShare :=
              if 0 < srcLen + tgtLen then (srcLen : ℚ) / ((srcLen + tgtLen : ℕ) : ℚ) else 1/2
            1 - noisePenaltyStrength * (noiseShare * lengthShare ^ 2)
          else 1
        else 1
      max 0 (min 1 (coverage * noisePenalty))

/-- One candidate's symmetric, length-aware score (the body of the scoring
loop in `best_match`). -/
def candidateScore (logFn : ℚ → ℚ) (refT candT : List String)
    (df : List (String × Nat)) (docCount : Nat) : ℚ :=
  let a := directionalSimilarity logFn refT candT df docCount
  let b := directionalSimilarity logFn candT refT df docCount
  let minLen := min refT.length candT.length
  let maxLen := max refT.length candT.length
  let lengthShare := if 0 < maxLen then (minLen : ℚ) / (maxLen : ℚ) else 1
  let alpha := 85/100 + 15/100 * lengthShare
  let beta := 1 - alpha
  max 0 (min 1 (alpha * max a b + beta * min a b))

/-! ### Candidate prefilter -/

/-- `overlap`: share of the distinct reference tokens present among the
candidate tokens. -/
def refOverlap (refT candT : List String) : ℚ :=
  let refSet := refT.dedup
  if refSet = [] then 0
  else ((refSet.filter (fun t => t ∈ candT)).length : ℚ) / (refSet.length : ℚ)

/-- `_first_token_prefix_ratio(src_tokens, tgt_tokens)`. -/
def firstTokenPrefixFrac (src tgt : List String) : ℚ :=
  match src, tgt with
  | a :: _, b :: _ =>
    if a = "" ∨ b = "" then 0
    else
      let maxLen := max a.length b.length
      if maxLen = 0 then 0
      else (commonPrefixLen a.toList b.toList : ℚ) / (maxLen : ℚ)
  | _, _ => 0

/-- The prefilter keep condition: `overlap > 0.0 or prefix_ratio >= 0.6`. -/
def passesFilter (refT candT : List String) : Prop :=
  0 < refOverlap refT candT ∨ 6/10 ≤ firstTokenPrefixFrac refT candT

instance (refT candT : List String) : Decidable (passesFilter refT candT) :=
  inferInstanceAs (Decidable (_ ∨ _))

/-- The cheap ranking signal `max(overlap, prefix_ratio)`. -/
def cheapScore (refT candT : List String) : ℚ :=
  max (refOverlap refT candT) (firstTokenPrefixFrac refT candT)

/-- Descending order on the cheap score: `x` may come before `y` when `y`'s
score is at most `x`'s.  Note that `List.insertionSort` with this relation
is stable, like Python's `list.sort`. -/
def scoreDesc (x y : ℚ × String × List String) : Prop := y.1 ≤ x.1

instance : DecidableRel scoreDesc := fun x y => inferInstanceAs (Decidable (y.1 ≤ x.1))

instance : IsTotal (ℚ × String × List String) scoreDesc := ⟨fun x y => le_total y.1 x.1⟩

instance : IsTrans (ℚ × String × List String) scoreDesc :=
  ⟨fun _ _ _ h h' => le_trans h' h⟩

/-- The prefilter of `best_match`: keep candidates passing the cheap test,
rank them by cheap score descending (stable), truncate to
`MAX_HEAVY_CANDIDATES`; if nothing passes, fall back to the first
`MAX_HEAVY_CANDIDATES` candidates in input order. -/
def prefilterShortlist (refT : List String) (tokenized : List (String × List String)) :
    List (String × List String) :=
  let scored := tokenized.filterMap
    (fun p => if passesFilter refT p.2 then some (cheapScore refT p.2, p) else none)
  if scored = [] then tokenized.take maxHeavyCandidates
  else ((List.insertionSort scoreDesc scored).take maxHeavyCandidates).map (·.2)

/-! ### Match selector -/

/-- The scoring loop of `best_match` over the shortlisted candidates:
running best score (initially `0.0`) and best candidate (initially
`None`), updated on strict improvement. -/
def bestScan (logFn : ℚ → ℚ) (refT : List String) (limited : List (String × List String))
    (df : List (String × Nat)) (docCount : Nat) : ℚ × Option String :=
  limited.foldl
    (fun acc p =>
      if p.2 = [] then acc
      else
        let s := candidateScore logFn refT p.2 df docCount
        if acc.1 < s then (s, some p.1) else acc)
    (0, none)

/-- The threshold-independent part of `best_match`: shortlist, corpus
statistics over the shortlist, and the best (score, candidate) pair. -/
def matchScan (logFn : ℚ → ℚ) (ref : String) (cands : List String) : ℚ × Option String :=
  let refT := tokenize ref
  let tokenized := cands.map (fun c => (c, tokenize c))
  let limited := prefilterShortlist refT tokenized
  let stats := computeDocFreqs (limited.map (·.2))
  bestScan logFn refT limited stats.1 stats.2

/-- `best_match(ref, candidates, threshold)`; `(None, None)` is modelled as
`none`. -/
def bestMatch (logFn : ℚ → ℚ) (ref : String) (cands : List String) (threshold : ℚ) :
    Option (String × ℚ) :=
  if cands = [] then none
  else if tokenize ref = [] then none
  else
    let scan := matchScan logFn ref cands
    match scan.2 with
    | none => none
    | some c => if scan.1 < threshold then none else some (c, round4 scan.1)

/-! ## `src/modules/engine/processor_utils.py` — `process_single_match`

A CSV input row (from `csv.DictReader`) maps column names to strings; the
produced result row additionally stores the similarity score as a float,
hence the `CellVal` codomain. -/

/-- A raw CSV row. -/
abbrev CsvRow : Type := List (String × String)

/-- `_make_output_key(col, source)`: with a (non-empty) precomputed column
mapping, look the pair up; otherwise fall back to the raw column name.
Python's `if column_mapping:` also treats an empty dict as absent. -/
def makeOutputKey (colMapping : Option (List ((String × String) × String)))
    (col source : String) : String :=
  match colMapping with
  | none => col
  | some m => if m = [] then col else (dictGet m (source, col)).getD col

/-- `process_single_match(args)` (the worker passes 8-tuples, i.e.
`colMapping = none`). -/
def processSingleMatch (logFn : ℚ → ℚ) (refRow : CsvRow) (refCol : String)
    (selRef : List String) (candRows : List CsvRow) (candCol : String)
    (selCand : List String) (threshold : ℚ) (colNames : List (String × String))
    (colMapping : Option (List ((String × String) × String))) : Row :=
  let refName := (dictGet refRow refCol).getD ""
  let candidateNames := candRows.map (fun r => (dictGet r candCol).getD "")
  let bm := bestMatch logFn refName candidateNames threshold
  let matchText := match bm with | none => "" | some p => p.1
  let simCell : CellVal := match bm with | none => .str "" | some p => .num p.2
  let base : Row :=
    dictSet
      (dictSet
        (dictSet [] ((dictGet colNames "CSV_COLUMN_REFERENCE").getD "reference") (.str refName))
        ((dictGet colNames "CSV_COLUMN_BEST_MATCH").getD "best_match") (.str matchText))
      ((dictGet colNames "CSV_COLUMN_SIMILARITY").getD "similarity") simCell
  let withRef := selRef.foldl
    (fun r col =>
      if dictContains refRow col then
        dictSet r (makeOutputKey colMapping col "ref") (.str ((dictGet refRow col).getD ""))
      else r)
    base
  if matchText = "" then withRef
  else
    match candRows.find? (fun r => (dictGet r candCol).getD "" = matchText) with
    | none => withRef
    | some matchedRow =>
      selCand.foldl
        (fun r col =>
          if dictContains matchedRow col then
            dictSet r (makeOutputKey colMapping col "cand") (.str ((dictGet matchedRow col).getD ""))
          else r)
        withRef

/-! ## `src/modules/engine/csv_processor.py` — the conflict resolver -/

/-- The text the resolver keys a row by: `(row.get(match_col) or "").strip()`.
A numeric cell there would raise `AttributeError` in Python (except `0.0`,
which is falsy and yields `""`); rows built by the row processor always
hold a string in the match column, and the resolver theorems assume as
much (`rowsTextOk`). -/
def cellMatchText : Option CellVal → String
  | none => ""
  | some (.str s) => strip s
  | some (.num _) => ""

/-- The matched-candidate text of a row. -/
def rowMatchText (matchCol : String) (row : Row) : String :=
  cellMatchText (dictGet row matchCol)

/-- The score the resolver reads from a row:
`float(raw_score) if raw_score != "" else 0.0`, with parse failures
mapped to `0.0` by the `except` clause. -/
def rowScore (simCol : String) (row : Row) : ℚ :=
  match (dictGet row simCol).getD (.str "") with
  | .num q => q
  | .str s => if s = "" then 0 else (parseDec s).getD 0

/-- Is a cell numeric? -/
def cellIsNum : CellVal → Bool
  | .num _ => true
  | .str _ => false

/-- The match column holds a string (or is absent) in every row: under this
condition the Python resolver runs without raising. -/
def rowsTextOk (matchCol : String) (rows : List Row) : Prop :=
  ∀ row ∈ rows, (dictGet row matchCol).all (fun v => !cellIsNum v) = true

instance (matchCol : String) (rows : List Row) : Decidable (rowsTextOk matchCol rows) :=
  inferInstanceAs (Decidable (∀ _ ∈ _, _))

/-- The resolver's scan state: `best_for_candidate` and `losers`.  The
Python `losers` set only ever collects distinct row indices, so a list
models it faithfully. -/
structure ResolveState : Type where
  best : List (String × (ℚ × Nat))
  losers : List Nat
deriving DecidableEq

/-- One step of the resolver's scan over `enumerate(result_rows)`. -/
def scanStep (matchCol simCol : String) (st : ResolveState) (p : Nat × Row) : ResolveState :=
  let cand := rowMatchText matchCol p.2
  if cand = "" then st
  else
    let score := rowScore simCol p.2
    match dictGet st.best cand with
    | none => { st with best := dictSet st.best cand (score, p.1) }
    | some prev =>
      if prev.1 < score then
        { best := dictSet st.best cand (score, p.1), losers := st.losers ++ [prev.2] }
      else
        { st with losers := st.losers ++ [p.1] }

/-- The single pass of `_resolve_candidate_conflicts` over all rows in
index order. -/
def resolveScan (matchCol simCol : String) (rows : List Row) : ResolveState :=
  rows.enum.foldl (scanStep matchCol simCol) ⟨[], []⟩

/-- Clearing of one losing row: empty the match and similarity columns and
every selected candidate-side column that is present. -/
def clearRow (matchCol simCol : String) (selCand : List String) (row : Row) : Row :=
  selCand.foldl
    (fun r col => if dictContains r col then dictSet r col (.str "") else r)
    (dictSet (dictSet row matchCol (.str "")) simCol (.str ""))

/-- `_resolve_candidate_conflicts(result_rows, selected_cand_cols)` with the
match/similarity column names already resolved from `column_names`
(`resolveCandidateConflicts` below supplies them). -/
def resolveConflictsCore (matchCol simCol : String) (selCand : List String)
    (rows : List Row) : List Row :=
  if rows = [] then rows
  else
    let st := resolveScan matchCol simCol rows
    if st.losers = [] then rows
    else rows.enum.map
      (fun p => if p.1 ∈ st.losers then clearRow matchCol simCol selCand p.2 else p.2)

/-- `_resolve_candidate_conflicts` proper: the column names come from the
worker's `column_names` dict with the usual defaults. -/
def resolveCandidateConflicts (colNames : List (String × String)) (selCand : List String)
    (rows : List Row) : List Row :=
  resolveConflictsCore
    ((dictGet colNames "CSV_COLUMN_BEST_MATCH").getD "best_match")
    ((dictGet colNames "CSV_COLUMN_SIMILARITY").getD "similarity")
    selCand rows

/-! ## Dictionary lemmas -/

theorem dictGet_cons {κ α : Type} [DecidableEq κ] (a : κ) (b : α) (t : List (κ × α)) (k : κ) :
    dictGet ((a, b) :: t) k = if a = k then some b else dictGet t k := by
  by_cases h : a = k <;> simp [dictGet, List.find?_cons, h]

theorem dictContains_cons {κ α : Type} [DecidableEq κ] (a : κ) (b : α) (t : List (κ × α)) (k : κ) :
    dictContains ((a, b) :: t) k = (decide (a = k) || dictContains t k) := by
  by_cases h : a = k <;> simp [dictContains, List.find?_cons, h]

theorem dictContains_eq_isSome {κ α : Type} [DecidableEq κ] (m : List (κ × α)) (k : κ) :
    dictContains m k = (dictGet m k).isSome := by
  simp [dictContains, dictGet]

theorem find?_replaceKey {κ α : Type} [DecidableEq κ] (t : List (κ × α)) (k k' : κ) (v : α) :
    ((t.map (fun p => if p.1 = k then (k, v) else p)).find? (fun p => p.1 = k')) =
      if k = k' then (t.find? (fun p => p.1 = k)).map (fun _ => (k, v))
      else t.find? (fun p => p.1 = k') := by
  induction t with
  | nil => by_cases h : k = k' <;> simp [h]
  | cons hd tl ih =>
    obtain ⟨a, b⟩ := hd
    simp only [List.map_cons]
    by_cases hkk : k = k'
    · rw [if_pos hkk] at *
      by_cases hak : a = k
      · rw [if_pos hak, List.find?_cons_of_pos _ (by simp [hkk]),
          List.find?_cons_of_pos _ (by simp [hak])]
        simp
      · rw [if_neg hak, List.find?_cons_of_neg _ (by simp [hkk ▸ hak]),
          List.find?_cons_of_neg _ (by simp [hak]), ih]
    · rw [if_neg hkk] at *
      by_cases hak : a = k
      · rw [if_pos hak, List.find?_cons_of_neg _ (by simp [hkk]),
          List.find?_cons_of_neg _ (by simp [hak ▸ hkk]), ih]
      · rw [if_neg hak]
        by_cases hak' : a = k'
        · rw [List.find?_cons_of_pos _ (by simp [hak']),
            List.find?_cons_of_pos _ (by simp [hak'])]
        · rw [List.find?_cons_of_neg _ (by simp [hak']),
            List.find?_cons_of_neg _ (by simp [hak']), ih]

theorem dictGet_dictSet {κ α : Type} [DecidableEq κ] (m : List (κ × α)) (k k' : κ) (v : α) :
    dictGet (dictSet m k v) k' = if k = k' then some v else dictGet m k' := by
  by_cases hc : dictContains m k = true
  · simp only [dictSet, if_pos hc, dictGet, find?_replaceKey]
    by_cases hkk : k = k'
    · rw [if_pos hkk, if_pos hkk]
      rw [dictContains_eq_isSome, dictGet] at hc
      cases hfind : List.find? (fun p => decide (p.1 = k)) m with
      | none => rw [hfind] at hc; simp at hc
      | some p => simp
    · rw [if_neg hkk, if_neg hkk]
  · have hfind : List.find? (fun p => decide (p.1 = k)) m = none := by
      rw [dictContains_eq_isSome, dictGet] at hc
      cases hf : List.find? (fun p => decide (p.1 = k)) m with
      | none => rfl
      | some p => rw [hf] at hc; simp at hc
    simp only [dictSet, if_neg hc, dictGet, List.find?_append]
    by_cases hkk : k = k'
    · have h1 : List.find? (fun p => decide (p.1 = k')) m = none := hkk ▸ hfind
      rw [h1, List.find?_cons_of_pos _ (by simp [hkk])]
      simp [hkk]
    · have h2 : List.find? (fun p => decide (p.1 = k')) [(k, v)] = none := by
        simp [List.find?_cons, hkk]
      rw [h2, if_neg hkk]
      cases List.find? (fun p => decide (p.1 = k')) m <;> rfl

theorem dictContains_dictSet {κ α : Type} [DecidableEq κ] (m : List (κ × α)) (k k' : κ) (v : α) :
    dictContains (dictSet m k v) k' = (dictContains m k' || decide (k = k')) := by
  rw [dictContains_eq_isSome, dictContains_eq_isSome, dictGet_dictSet]
  by_cases hkk : k = k'
  · subst hkk
    simp [← dictContains_eq_isSome]
  · simp [hkk]

theorem dictGet_dictSet_self {κ α : Type} [DecidableEq κ] (m : List (κ × α)) (k : κ) (v : α) :
    dictGet (dictSet m k v) k = some v := by
  simp [dictGet_dictSet]

theorem dictGet_dictSet_ne {κ α : Type} [DecidableEq κ] (m : List (κ × α)) {k k' : κ} (v : α)
    (h : k ≠ k') : dictGet (dictSet m k v) k' = dictGet m k' := by
  simp [dictGet_dictSet, h]

/-- Lookup through a fold that conditionally sets each listed key
(with a condition and value independent of the accumulator). -/
theorem dictGet_foldl_setIf {κ α : Type} [DecidableEq κ] (cols : List κ) (P : κ → Bool)
    (f : κ → α) (r : List (κ × α)) (c : κ) :
    dictGet (cols.foldl (fun r col => if P col then dictSet r col (f col) else r) r) c =
      if c ∈ cols ∧ P c then some (f c) else dictGet r c := by
  induction cols generalizing r with
  | nil => simp
  | cons col rest ih =>
    simp only [List.foldl_cons]
    rw [ih]
    by_cases hmem : c ∈ rest ∧ P c = true
    · rw [if_pos hmem, if_pos ⟨List.mem_cons_of_mem _ hmem.1, hmem.2⟩]
    · rw [if_neg hmem]
      by_cases hcc : col = c
      · by_cases hP : P col = true
        · rw [if_pos hP, hcc, dictGet_dictSet_self,
            if_pos ⟨List.mem_cons_self _ _, hcc ▸ hP⟩]
        · rw [if_neg hP, if_neg]
          rintro ⟨_, h2⟩
          exact hP (hcc ▸ h2)
      · by_cases hP : P col = true
        · rw [if_pos hP, dictGet_dictSet_ne r (f col) hcc, if_neg]
          rintro ⟨h1, h2⟩
          rcases List.mem_cons.mp h1 with h1 | h1
          · exact hcc h1.symm
          · exact hmem ⟨h1, h2⟩
        · rw [if_neg hP, if_neg]
          rintro ⟨h1, h2⟩
          rcases List.mem_cons.mp h1 with h1 | h1
          · exact hP (h1 ▸ h2)
          · exact hmem ⟨h1, h2⟩

theorem dictContains_dictSet_self {κ α : Type} [DecidableEq κ] (m : List (κ × α)) (k : κ)
    (v : α) : dictContains (dictSet m k v) k = true := by
  simp [dictContains_dictSet]

theorem dictContains_dictSet_of_contains {κ α : Type} [DecidableEq κ] {m : List (κ × α)}
    {k : κ} (v : α) (c : κ) (h : dictContains m k = true) :
    dictContains (dictSet m k v) c = dictContains m c := by
  rw [dictContains_dictSet]
  by_cases hkc : k = c
  · rw [← hkc, h]
    simp
  · simp [hkc]

/-- Lookup through the clearing fold of `clearRow` (which only ever
replaces present keys, so the key set of the accumulator is fixed). -/
theorem dictGet_clearFold (cols : List String) (r : Row) (c : String) :
    dictGet (cols.foldl
        (fun r col => if dictContains r col then dictSet r col (.str "") else r) r) c =
      if c ∈ cols ∧ dictContains r c = true then some (.str "") else dictGet r c := by
  induction cols generalizing r with
  | nil => simp
  | cons col rest ih =>
    simp only [List.foldl_cons]
    rw [ih]
    have hcont : dictContains
        (if dictContains r col = true then dictSet r col (.str "") else r) c =
        dictContains r c := by
      by_cases h : dictContains r col = true
      · rw [if_pos h, dictContains_dictSet_of_contains _ _ h]
      · rw [if_neg h]
    rw [hcont]
    by_cases hmem : c ∈ rest ∧ dictContains r c = true
    · rw [if_pos hmem, if_pos ⟨List.mem_cons_of_mem _ hmem.1, hmem.2⟩]
    · rw [if_neg hmem]
      by_cases hcc : col = c
      · by_cases hrc : dictContains r c = true
        · rw [if_pos (hcc ▸ hrc), hcc, dictGet_dictSet_self,
            if_pos ⟨List.mem_cons_self _ _, hrc⟩]
        · rw [if_neg (hcc ▸ hrc), if_neg]
          rintro ⟨_, h2⟩
          exact hrc h2
      · have hval : dictGet
            (if dictContains r col = true then dictSet r col (.str "") else r) c =
            dictGet r c := by
          by_cases h : dictContains r col = true
          · rw [if_pos h, dictGet_dictSet_ne r _ hcc]
          · rw [if_neg h]
        rw [hval, if_neg]
        rintro ⟨h1, h2⟩
        rcases List.mem_cons.mp h1 with h1 | h1
        · exact hcc h1.symm
        · exact hmem ⟨h1, h2⟩

theorem dictContains_clearBase (row : Row) (matchCol simCol c : String) :
    dictContains (dictSet (dictSet row matchCol (.str "")) simCol (.str "")) c =
      (dictContains row c || decide (matchCol = c) || decide (simCol = c)) := by
  rw [dictContains_dictSet, dictContains_dictSet]

theorem dictGet_clearRow_matchCol (matchCol simCol : String) (cols : List String) (row : Row) :
    dictGet (clearRow matchCol simCol cols row) matchCol = some (.str "") := by
  rw [clearRow, dictGet_clearFold]
  by_cases hmem : matchCol ∈ cols ∧
      dictContains (dictSet (dictSet row matchCol (.str "")) simCol (.str "")) matchCol = true
  · rw [if_pos hmem]
  · rw [if_neg hmem]
    by_cases hms : simCol = matchCol
    · rw [hms, dictGet_dictSet_self]
    · rw [dictGet_dictSet_ne _ _ hms, dictGet_dictSet_self]

theorem dictGet_clearRow_simCol (matchCol simCol : String) (cols : List String) (row : Row) :
    dictGet (clearRow matchCol simCol cols row) simCol = some (.str "") := by
  rw [clearRow, dictGet_clearFold]
  by_cases hmem : simCol ∈ cols ∧
      dictContains (dictSet (dictSet row matchCol (.str "")) simCol (.str "")) simCol = true
  · rw [if_pos hmem]
  · rw [if_neg hmem, dictGet_dictSet_self]

theorem dictGet_clearRow_sel (matchCol simCol : String) (cols : List String) (row : Row)
    {c : String} (hc : c ∈ cols) (hcont : dictContains row c = true) :
    dictGet (clearRow matchCol simCol cols row) c = some (.str "") := by
  rw [clearRow, dictGet_clearFold, if_pos]
  refine ⟨hc, ?_⟩
  rw [dictContains_clearBase, hcont]
  simp

theorem dictGet_clearRow_other (matchCol simCol : String) (cols : List String) (row : Row)
    {c : String} (h1 : c ≠ matchCol) (h2 : c ≠ simCol) (h3 : c ∉ cols) :
    dictGet (clearRow matchCol simCol cols row) c = dictGet row c := by
  rw [clearRow, dictGet_clearFold, if_neg (fun h => h3 h.1),
    dictGet_dictSet_ne _ _ (fun h => h2 h.symm), dictGet_dictSet_ne _ _ (fun h => h1 h.symm)]

theorem strip_empty : strip "" = "" := rfl

theorem rowMatchText_clearRow (matchCol simCol : String) (cols : List String) (row : Row) :
    rowMatchText matchCol (clearRow matchCol simCol cols row) = "" := by
  rw [rowMatchText, dictGet_clearRow_matchCol]
  rfl

/-! ## The resolver's scan: step characterisation and invariant -/

theorem scanStep_skip (matchCol simCol : String) (st : ResolveState) (p : Nat × Row)
    (h : rowMatchText matchCol p.2 = "") : scanStep matchCol simCol st p = st := by
  simp [scanStep, h]

theorem scanStep_new (matchCol simCol : String) (st : ResolveState) (p : Nat × Row)
    (h : rowMatchText matchCol p.2 ≠ "")
    (hprev : dictGet st.best (rowMatchText matchCol p.2) = none) :
    scanStep matchCol simCol st p =
      ⟨dictSet st.best (rowMatchText matchCol p.2) (rowScore simCol p.2, p.1), st.losers⟩ := by
  simp [scanStep, h, hprev]

theorem scanStep_better (matchCol simCol : String) (st : ResolveState) (p : Nat × Row)
    {prev : ℚ × Nat} (h : rowMatchText matchCol p.2 ≠ "")
    (hprev : dictGet st.best (rowMatchText matchCol p.2) = some prev)
    (hlt : prev.1 < rowScore simCol p.2) :
    scanStep matchCol simCol st p =
      ⟨dictSet st.best (rowMatchText matchCol p.2) (rowScore simCol p.2, p.1),
       st.losers ++ [prev.2]⟩ := by
  simp [scanStep, h, hprev, hlt]

theorem scanStep_keep (matchCol simCol : String) (st : ResolveState) (p : Nat × Row)
    {prev : ℚ × Nat} (h : rowMatchText matchCol p.2 ≠ "")
    (hprev : dictGet st.best (rowMatchText matchCol p.2) = some prev)
    (hge : rowScore simCol p.2 ≤ prev.1) :
    scanStep matchCol simCol st p = ⟨st.best, st.losers ++ [p.1]⟩ := by
  simp [scanStep, h, hprev, not_lt.mpr hge]

/-- Invariant of the resolver's scan after processing the indexed rows in
`done`: every loser is one of the processed rows with a non-empty match
text, every tracked holder is a processed row carrying exactly its tracked
candidate text, and every processed row with a non-empty match text is
either a loser or the current holder of its text. -/
def ScanInv (matchCol : String) (done : List (Nat × Row)) (st : ResolveState) : Prop :=
  (∀ i ∈ st.losers, ∃ r, (i, r) ∈ done ∧ rowMatchText matchCol r ≠ "") ∧
  (∀ c s i, dictGet st.best c = some (s, i) →
    ∃ r, (i, r) ∈ done ∧ rowMatchText matchCol r = c ∧ c ≠ "") ∧
  (∀ i r, (i, r) ∈ done → rowMatchText matchCol r ≠ "" →
    i ∈ st.losers ∨ ∃ s, dictGet st.best (rowMatchText matchCol r) = some (s, i))

theorem ScanInv.nil (matchCol : String) : ScanInv matchCol [] ⟨[], []⟩ := by
  refine ⟨by simp, fun c s i h => ?_, by simp⟩
  simp [dictGet] at h

theorem ScanInv.step (matchCol simCol : String) {done : List (Nat × Row)} {st : ResolveState}
    (p : Nat × Row) (h : ScanInv matchCol done st) :
    ScanInv matchCol (done ++ [p]) (scanStep matchCol simCol st p) := by
  obtain ⟨h1, h2, h3⟩ := h
  obtain ⟨pi, pr⟩ := p
  by_cases hc : rowMatchText matchCol pr = ""
  · rw [scanStep_skip matchCol simCol st (pi, pr) hc]
    refine ⟨fun i hi => ?_, fun c s i hb => ?_, fun i r hir ht => ?_⟩
    · obtain ⟨r, hr, hr'⟩ := h1 i hi
      exact ⟨r, List.mem_append_left _ hr, hr'⟩
    · obtain ⟨r, hr, hr'⟩ := h2 c s i hb
      exact ⟨r, List.mem_append_left _ hr, hr'⟩
    · rcases List.mem_append.mp hir with hir | hir
      · exact h3 i r hir ht
      · simp only [List.mem_singleton, Prod.mk.injEq] at hir
        exact absurd (hir.2 ▸ ht) (not_not_intro hc)
  · cases hprev : dictGet st.best (rowMatchText matchCol pr) with
    | none =>
      rw [scanStep_new matchCol simCol st (pi, pr) hc hprev]
      refine ⟨fun i hi => ?_, fun c s i hb => ?_, fun i r hir ht => ?_⟩
      · obtain ⟨r, hr, hr'⟩ := h1 i hi
        exact ⟨r, List.mem_append_left _ hr, hr'⟩
      · rw [dictGet_dictSet] at hb
        by_cases hcc : rowMatchText matchCol pr = c
        · rw [if_pos hcc] at hb
          obtain ⟨rfl, rfl⟩ : s = rowScore simCol pr ∧ i = pi := by
            have := Option.some.inj hb
            exact ⟨(Prod.mk.injEq _ _ _ _ ▸ this).1.symm, (Prod.mk.injEq _ _ _ _ ▸ this).2.symm⟩
          exact ⟨pr, List.mem_append_right _ (by simp), hcc, hcc ▸ hc⟩
        · rw [if_neg hcc] at hb
          obtain ⟨r, hr, hr'⟩ := h2 c s i hb
          exact ⟨r, List.mem_append_left _ hr, hr'⟩
      · rcases List.mem_append.mp hir with hir | hir
        · rcases h3 i r hir ht with hl | ⟨s, hs⟩
          · exact Or.inl hl
          · refine Or.inr ⟨s, ?_⟩
            rw [dictGet_dictSet, if_neg, hs]
            intro heq
            rw [← heq] at hs
            rw [hprev] at hs
            exact Option.noConfusion hs
        · simp only [List.mem_singleton, Prod.mk.injEq] at hir
          obtain ⟨rfl, rfl⟩ := hir
          exact Or.inr ⟨rowScore simCol r, by rw [dictGet_dictSet_self]⟩
    | some prev =>
      by_cases hlt : prev.1 < rowScore simCol pr
      · rw [scanStep_better matchCol simCol st (pi, pr) hc hprev hlt]
        refine ⟨fun i hi => ?_, fun c s i hb => ?_, fun i r hir ht => ?_⟩
        · rcases List.mem_append.mp hi with hi | hi
          · obtain ⟨r, hr, hr'⟩ := h1 i hi
            exact ⟨r, List.mem_append_left _ hr, hr'⟩
          · simp only [List.mem_singleton] at hi
            obtain ⟨r, hr, hr1, hr2⟩ := h2 _ prev.1 prev.2 (by rw [hprev])
            exact ⟨r, List.mem_append_left _ (hi ▸ hr), by rw [hr1]; exact hr2⟩
        · rw [dictGet_dictSet] at hb
          by_cases hcc : rowMatchText matchCol pr = c
          · rw [if_pos hcc] at hb
            obtain ⟨rfl, rfl⟩ : s = rowScore simCol pr ∧ i = pi := by
              have := Option.some.inj hb
              exact ⟨(Prod.mk.injEq _ _ _ _ ▸ this).1.symm, (Prod.mk.injEq _ _ _ _ ▸ this).2.symm⟩
            exact ⟨pr, List.mem_append_right _ (by simp), hcc, hcc ▸ hc⟩
          · rw [if_neg hcc] at hb
            obtain ⟨r, hr, hr'⟩ := h2 c s i hb
            exact ⟨r, List.mem_append_left _ hr, hr'⟩
        · rcases List.mem_append.mp hir with hir | hir
          · rcases h3 i r hir ht with hl | ⟨s, hs⟩
            · exact Or.inl (List.mem_append_left _ hl)
            · by_cases hcc : rowMatchText matchCol r = rowMatchText matchCol pr
              · rw [hcc, hprev] at hs
                have hpi : prev = (s, i) := Option.some.inj hs
                exact Or.inl (List.mem_append_right _ (by simp [hpi]))
              · refine Or.inr ⟨s, ?_⟩
                rw [dictGet_dictSet, if_neg (fun heq => hcc heq.symm), hs]
          · simp only [List.mem_singleton, Prod.mk.injEq] at hir
            obtain ⟨rfl, rfl⟩ := hir
            exact Or.inr ⟨rowScore simCol r, by rw [dictGet_dictSet_self]⟩
      · rw [scanStep_keep matchCol simCol st (pi, pr) hc hprev (not_lt.mp hlt)]
        refine ⟨fun i hi => ?_, fun c s i hb => ?_, fun i r hir ht => ?_⟩
        · rcases List.mem_append.mp hi with hi | hi
          · obtain ⟨r, hr, hr'⟩ := h1 i hi
            exact ⟨r, List.mem_append_left _ hr, hr'⟩
          · simp only [List.mem_singleton] at hi
            exact ⟨pr, List.mem_append_right _ (by simp [hi]), hc⟩
        · obtain ⟨r, hr, hr'⟩ := h2 c s i hb
          exact ⟨r, List.mem_append_left _ hr, hr'⟩
        · rcases List.mem_append.mp hir with hir | hir
          · rcases h3 i r hir ht with hl | ⟨s, hs⟩
            · exact Or.inl (List.mem_append_left _ hl)
            · exact Or.inr ⟨s, hs⟩
          · simp only [List.mem_singleton, Prod.mk.injEq] at hir
            exact Or.inl (List.mem_append_right _ (by simp [hir.1]))

theorem ScanInv.fold (matchCol simCol : String) (pairs : List (Nat × Row)) :
    ∀ (done : List (Nat × Row)) (st : ResolveState), ScanInv matchCol done st →
      ScanInv matchCol (done ++ pairs) (pairs.foldl (scanStep matchCol simCol) st) := by
  induction pairs with
  | nil => intro done st h; simpa using h
  | cons p rest ih =>
    intro done st h
    have h' := ScanInv.step matchCol simCol p h
    have h'' := ih (done ++ [p]) _ h'
    simpa using h''

theorem resolveScan_inv (matchCol simCol : String) (rows : List Row) :
    ScanInv matchCol rows.enum (resolveScan matchCol simCol rows) := by
  have := ScanInv.fold matchCol simCol rows.enum [] ⟨[], []⟩ (ScanInv.nil matchCol)
  simpa [resolveScan] using this

/-! ## Resolver output characterisation -/

theorem resolveCore_getElem? (matchCol simCol : String) (cols : List String) (rows : List Row)
    (i : Nat) :
    (resolveConflictsCore matchCol simCol cols rows)[i]? =
      (rows[i]?).map (fun r =>
        if (resolveScan matchCol simCol rows).losers ≠ [] ∧
            i ∈ (resolveScan matchCol simCol rows).losers
        then clearRow matchCol simCol cols r else r) := by
  unfold resolveConflictsCore
  by_cases hnil : rows = []
  · subst hnil
    simp [resolveScan]
  · rw [if_neg hnil]
    by_cases hl : (resolveScan matchCol simCol rows).losers = []
    · rw [if_pos hl]
      cases hri : rows[i]? <;> simp [hl, hri]
    · rw [if_neg hl]
      rw [List.getElem?_map, List.getElem?_enum]
      cases hri : rows[i]? <;> simp [hl, hri]

theorem resolveCore_nonloser (matchCol simCol : String) (cols : List String) (rows : List Row)
    {i : Nat} (hi : i ∉ (resolveScan matchCol simCol rows).losers) :
    (resolveConflictsCore matchCol simCol cols rows)[i]? = rows[i]? := by
  rw [resolveCore_getElem?]
  cases rows[i]? <;> simp [hi]

theorem resolveCore_loser (matchCol simCol : String) (cols : List String) (rows : List Row)
    {i : Nat} {r : Row} (hi : i ∈ (resolveScan matchCol simCol rows).losers)
    (hr : rows[i]? = some r) :
    (resolveConflictsCore matchCol simCol cols rows)[i]? =
      some (clearRow matchCol simCol cols r) := by
  rw [resolveCore_getElem?, hr]
  simp [hi, List.ne_nil_of_mem hi]

/-- After resolution, two distinct rows never carry the same non-empty
matched-candidate text. -/
theorem resolveCore_unique (matchCol simCol : String) (cols : List String) (rows : List Row)
    {i j : Nat} {ri rj : Row}
    (hi : (resolveConflictsCore matchCol simCol cols rows)[i]? = some ri)
    (hj : (resolveConflictsCore matchCol simCol cols rows)[j]? = some rj)
    (ht : rowMatchText matchCol ri ≠ "")
    (heq : rowMatchText matchCol ri = rowMatchText matchCol rj) : i = j := by
  rw [resolveCore_getElem?] at hi hj
  obtain ⟨ri0, hri0, hri⟩ := Option.map_eq_some'.mp hi
  obtain ⟨rj0, hrj0, hrj⟩ := Option.map_eq_some'.mp hj
  have hiL : i ∉ (resolveScan matchCol simCol rows).losers := by
    intro hmem
    rw [if_pos ⟨List.ne_nil_of_mem hmem, hmem⟩] at hri
    rw [← hri, rowMatchText_clearRow] at ht
    exact ht rfl
  have hjL : j ∉ (resolveScan matchCol simCol rows).losers := by
    intro hmem
    rw [if_pos ⟨List.ne_nil_of_mem hmem, hmem⟩] at hrj
    rw [← hrj, rowMatchText_clearRow] at heq
    exact ht (heq.trans rfl)
  rw [if_neg (fun hx => hiL hx.2)] at hri
  rw [if_neg (fun hx => hjL hx.2)] at hrj
  subst hri
  subst hrj
  obtain ⟨-, -, h3⟩ := resolveScan_inv matchCol simCol rows
  rcases h3 i ri0 (List.mem_enum_iff_getElem?.mpr hri0) ht with hl | ⟨s, hs⟩
  · exact absurd hl hiL
  rcases h3 j rj0 (List.mem_enum_iff_getElem?.mpr hrj0) (heq ▸ ht) with hl | ⟨s', hs'⟩
  · exact absurd hl hjL
  rw [heq] at hs
  rw [hs] at hs'
  exact (Prod.mk.injEq _ _ _ _ ▸ Option.some.inj hs').2

/-- A list in which the property holds at no more than one index has
`countP ≤ 1`. -/
theorem countP_le_one_of_unique {α : Type} (p : α → Bool) (l : List α)
    (h : ∀ (i j : ℕ) (ri rj : α), l[i]? = some ri → l[j]? = some rj →
      p ri = true → p rj = true → i = j) : l.countP p ≤ 1 := by
  induction l with
  | nil => simp
  | cons a t ih =>
    rw [List.countP_cons]
    by_cases hpa : p a = true
    · have hzero : t.countP p = 0 := by
        rw [List.countP_eq_zero]
        intro x hx hpx
        obtain ⟨k, hk⟩ := List.getElem?_of_mem hx
        have := h 0 (k + 1) a x (by simp) (by simpa using hk) hpa hpx
        exact Nat.noConfusion this
      rw [hzero, hpa]
      simp
    · rw [if_neg hpa]
      have := ih (fun i j ri rj hi hj hpi hpj =>
        Nat.succ_injective
          (h (i + 1) (j + 1) ri rj (by simpa using hi) (by simpa using hj) hpi hpj))
      omega

/-- If no two rows share a non-empty match text, the scan produces no
losers. -/
theorem resolveScan_noLosers (matchCol simCol : String) (rows : List Row)
    (huniq : ∀ (i j : ℕ) (ri rj : Row), rows[i]? = some ri → rows[j]? = some rj →
      rowMatchText matchCol ri = rowMatchText matchCol rj →
      rowMatchText matchCol ri ≠ "" → i = j) :
    (resolveScan matchCol simCol rows).losers = [] := by
  suffices haux : ∀ (rest done : List (Nat × Row)) (st : ResolveState),
      rows.enum = done ++ rest → st.losers = [] →
      (∀ c s i, dictGet st.best c = some (s, i) →
        ∃ r, (i, r) ∈ done ∧ rowMatchText matchCol r = c ∧ c ≠ "") →
      (rest.foldl (scanStep matchCol simCol) st).losers = [] by
    exact haux rows.enum [] ⟨[], []⟩ rfl rfl (fun c s i hb => by simp [dictGet] at hb)
  intro rest
  induction rest with
  | nil => intro done st _ hl _; simpa using hl
  | cons p rest' ih =>
    intro done st henum hl hbest
    obtain ⟨pi, pr⟩ := p
    have hmemp : ((pi, pr) : Nat × Row) ∈ rows.enum := by
      rw [henum]; exact List.mem_append_right _ (List.mem_cons_self _ _)
    have hgetp : rows[pi]? = some pr := List.mem_enum_iff_getElem?.mp hmemp
    rw [List.foldl_cons]
    by_cases hc : rowMatchText matchCol pr = ""
    · rw [scanStep_skip _ _ _ _ hc]
      refine ih (done ++ [(pi, pr)]) st (by rw [henum]; simp) hl ?_
      intro c s i hb
      obtain ⟨r, hr, hr'⟩ := hbest c s i hb
      exact ⟨r, List.mem_append_left _ hr, hr'⟩
    · cases hprev : dictGet st.best (rowMatchText matchCol pr) with
      | some prev =>
        exfalso
        obtain ⟨r, hrdone, hrt, -⟩ := hbest _ prev.1 prev.2 (by rw [hprev])
        have hrmem : ((prev.2, r) : Nat × Row) ∈ rows.enum := by
          rw [henum]; exact List.mem_append_left _ hrdone
        have hrget : rows[prev.2]? = some r := List.mem_enum_iff_getElem?.mp hrmem
        have heqi : prev.2 = pi := huniq prev.2 pi r pr hrget hgetp (by rw [hrt]) (by rw [hrt]; exact hc)
        -- but `prev.2` is an index of `done` while `pi` heads `rest`: enum indices are distinct
        have hnodup : (rows.enum.map Prod.fst).Nodup := by
          rw [List.enum_map_fst]; exact List.nodup_range _
        rw [henum, List.map_append, List.nodup_append] at hnodup
        have hmemdone : pi ∈ done.map Prod.fst :=
          heqi ▸ List.mem_map_of_mem Prod.fst hrdone
        exact hnodup.2.2 hmemdone (by simp)
      | none =>
        rw [scanStep_new _ _ _ _ hc hprev]
        refine ih (done ++ [(pi, pr)]) _ (by rw [henum]; simp) hl ?_
        intro c s i hb
        rw [dictGet_dictSet] at hb
        by_cases hcc : rowMatchText matchCol pr = c
        · rw [if_pos hcc] at hb
          obtain ⟨rfl, rfl⟩ : s = rowScore simCol pr ∧ i = pi := by
            have := Option.some.inj hb
            exact ⟨(Prod.mk.injEq _ _ _ _ ▸ this).1.symm, (Prod.mk.injEq _ _ _ _ ▸ this).2.symm⟩
          exact ⟨pr, List.mem_append_right _ (by simp), hcc, hcc ▸ hc⟩
        · rw [if_neg hcc] at hb
          obtain ⟨r, hr, hr'⟩ := hbest c s i hb
          exact ⟨r, List.mem_append_left _ hr, hr'⟩

/-- Resolution is idempotent. -/
theorem resolveCore_idem (matchCol simCol : String) (cols : List String) (rows : List Row) :
    resolveConflictsCore matchCol simCol cols (resolveConflictsCore matchCol simCol cols rows) =
      resolveConflictsCore matchCol simCol cols rows := by
  by_cases h0 : resolveConflictsCore matchCol simCol cols rows = []
  · rw [resolveConflictsCore, if_pos h0]
  · have hl := resolveScan_noLosers matchCol simCol
      (resolveConflictsCore matchCol simCol cols rows)
      (fun i j ri rj hi hj heq ht => resolveCore_unique matchCol simCol cols rows hi hj ht heq)
    rw [resolveConflictsCore, if_neg h0]
    simp [hl]

/-! ## Claims C1–C4: the conflict resolver -/

/-- **C1** — Conflict resolution holder selection: the resolver makes a
single pass over the rows in index order (`resolveScan` folds `scanStep`
over `rows.enum`); per non-empty matched-candidate text it tracks
`(best_score, row_index)`; a later row with a strictly higher score for the
same candidate text turns the tracked row into a loser and becomes the
holder; a later row with an equal or lower score becomes the loser itself
and the earlier holder is kept.  (The hypothesis `hok` records that the
match column holds text, as in every row the row processor produces;
a non-string value there would raise in Python.) -/
theorem resolver_holder_selection_c1 (matchCol simCol : String) (st : ResolveState)
    (idx : Nat) (row : Row)
    (hok : (dictGet row matchCol).all (fun v => !cellIsNum v) = true) :
    (∀ rows : List Row, resolveScan matchCol simCol rows =
      rows.enum.foldl (scanStep matchCol simCol) ⟨[], []⟩) ∧
    (rowMatchText matchCol row = "" → scanStep matchCol simCol st (idx, row) = st) ∧
    (rowMatchText matchCol row ≠ "" →
      (dictGet st.best (rowMatchText matchCol row) = none →
        scanStep matchCol simCol st (idx, row) =
          ⟨dictSet st.best (rowMatchText matchCol row) (rowScore simCol row, idx),
           st.losers⟩) ∧
      (∀ prevScore prevIdx,
        dictGet st.best (rowMatchText matchCol row) = some (prevScore, prevIdx) →
        (prevScore < rowScore simCol row →
          scanStep matchCol simCol st (idx, row) =
            ⟨dictSet st.best (rowMatchText matchCol row) (rowScore simCol row, idx),
             st.losers ++ [prevIdx]⟩) ∧
        (rowScore simCol row ≤ prevScore →
          scanStep matchCol simCol st (idx, row) = ⟨st.best, st.losers ++ [idx]⟩))) := by
  refine ⟨fun _ => rfl, fun h => scanStep_skip matchCol simCol st (idx, row) h,
    fun h => ⟨fun hprev => scanStep_new matchCol simCol st (idx, row) h hprev,
      fun prevScore prevIdx hprev => ⟨fun hlt => ?_, fun hge => ?_⟩⟩⟩
  · exact scanStep_better matchCol simCol st (idx, row) h hprev hlt
  · exact scanStep_keep matchCol simCol st (idx, row) h hprev hge

/-- Witness for C1: a concrete step in which the later row ties (score `0`
against a tracked `1`), so the later row index `3` is appended to the
losers and the earlier holder survives. -/
theorem resolver_holder_selection_c1_witness :
    scanStep "best_match" "similarity" ⟨[("x", ((1 : ℚ), 0))], []⟩
      (3, [("best_match", CellVal.str "x")]) = ⟨[("x", ((1 : ℚ), 0))], [3]⟩ := by
  have h := resolver_holder_selection_c1 "best_match" "similarity"
    ⟨[("x", ((1 : ℚ), 0))], []⟩ 3 [("best_match", CellVal.str "x")] (by decide)
  have h2 := ((h.2.2 (by decide)).2 1 0 (by decide)).2 (by decide)
  simpa using h2

/-- **C2** — Uniqueness after conflict resolution: for every non-empty
matched-candidate text (the stripped match-column text, which is how the
resolver keys candidates), at most one result row carries it after
resolution; likewise, for any literal cell text whose strip is non-empty
(every text `best_match` can produce strips to itself and is non-empty),
at most one row's match column holds exactly that text. -/
theorem resolver_uniqueness_c2 (matchCol simCol : String) (cols : List String)
    (rows : List Row) (hok : rowsTextOk matchCol rows) (c : String) (hc : c ≠ "") :
    (resolveConflictsCore matchCol simCol cols rows).countP
      (fun r => rowMatchText matchCol r == c) ≤ 1 ∧
    (strip c ≠ "" →
      (resolveConflictsCore matchCol simCol cols rows).countP
        (fun r => dictGet r matchCol == some (CellVal.str c)) ≤ 1) := by
  constructor
  · apply countP_le_one_of_unique
    intro i j ri rj hi hj hpi hpj
    have hti : rowMatchText matchCol ri = c := by simpa using hpi
    have htj : rowMatchText matchCol rj = c := by simpa using hpj
    exact resolveCore_unique matchCol simCol cols rows hi hj (hti ▸ hc) (by rw [hti, htj])
  · intro hsc
    apply countP_le_one_of_unique
    intro i j ri rj hi hj hpi hpj
    have hgi : dictGet ri matchCol = some (CellVal.str c) := by simpa using hpi
    have hgj : dictGet rj matchCol = some (CellVal.str c) := by simpa using hpj
    have hti : rowMatchText matchCol ri = strip c := by rw [rowMatchText, hgi]; rfl
    have htj : rowMatchText matchCol rj = strip c := by rw [rowMatchText, hgj]; rfl
    exact resolveCore_unique matchCol simCol cols rows hi hj (hti ▸ hsc)
      (by rw [hti, htj])

/-- Witness for C2 at a concrete input: two rows both matched to `"x"`. -/
theorem resolver_uniqueness_c2_witness :
    (resolveConflictsCore "best_match" "similarity" []
        [[("best_match", CellVal.str "x")], [("best_match", CellVal.str "x")]]).countP
      (fun r => rowMatchText "best_match" r == "x") ≤ 1 :=
  (resolver_uniqueness_c2 "best_match" "similarity" []
    [[("best_match", CellVal.str "x")], [("best_match", CellVal.str "x")]]
    (by decide) "x" (by decide)).1

/-- **C3** — Frame effect of conflict resolution: rows that are not losers
are returned unmodified; every loser row has its match column, its
similarity column and every present selected candidate-side column set to
the empty string, while every other column keeps its previous value. -/
theorem resolver_frame_c3 (matchCol simCol : String) (cols : List String)
    (rows : List Row) (hok : rowsTextOk matchCol rows) :
    (∀ i, i ∉ (resolveScan matchCol simCol rows).losers →
      (resolveConflictsCore matchCol simCol cols rows)[i]? = rows[i]?) ∧
    (∀ i ∈ (resolveScan matchCol simCol rows).losers, ∀ r, rows[i]? = some r →
      ∃ r', (resolveConflictsCore matchCol simCol cols rows)[i]? = some r' ∧
        dictGet r' matchCol = some (.str "") ∧
        dictGet r' simCol = some (.str "") ∧
        (∀ k ∈ cols, dictContains r k = true → dictGet r' k = some (.str "")) ∧
        (∀ k, k ≠ matchCol → k ≠ simCol → k ∉ cols → dictGet r' k = dictGet r k)) := by
  refine ⟨fun i hi => resolveCore_nonloser matchCol simCol cols rows hi,
    fun i hi r hr => ⟨clearRow matchCol simCol cols r,
      resolveCore_loser matchCol simCol cols rows hi hr,
      dictGet_clearRow_matchCol matchCol simCol cols r,
      dictGet_clearRow_simCol matchCol simCol cols r,
      fun k hk hcont => dictGet_clearRow_sel matchCol simCol cols r hk hcont,
      fun k h1 h2 h3 => dictGet_clearRow_other matchCol simCol cols r h1 h2 h3⟩⟩

/-- Witness for C3 at a concrete input: row `1` loses its match to row `0`
and is cleared (match text, similarity, the present selected column `"c"`),
while its other column `"id"` survives; row `0` is untouched. -/
theorem resolver_frame_c3_witness :
    (resolveConflictsCore "best_match" "similarity" ["c"]
        [[("best_match", CellVal.str "x")],
         [("best_match", CellVal.str "x"), ("c", CellVal.str "v"),
          ("id", CellVal.str "7")]])[0]? =
      some [("best_match", CellVal.str "x")] ∧
    ∃ r', (resolveConflictsCore "best_match" "similarity" ["c"]
        [[("best_match", CellVal.str "x")],
         [("best_match", CellVal.str "x"), ("c", CellVal.str "v"),
          ("id", CellVal.str "7")]])[1]? = some r' ∧
      dictGet r' "best_match" = some (.str "") ∧
      dictGet r' "similarity" = some (.str "") ∧
      (∀ k ∈ ["c"], dictContains
          [("best_match", CellVal.str "x"), ("c", CellVal.str "v"),
           ("id", CellVal.str "7")] k = true → dictGet r' k = some (.str "")) ∧
      (∀ k, k ≠ "best_match" → k ≠ "similarity" → k ∉ ["c"] →
        dictGet r' k = dictGet
          [("best_match", CellVal.str "x"), ("c", CellVal.str "v"),
           ("id", CellVal.str "7")] k) := by
  have h := resolver_frame_c3 "best_match" "similarity" ["c"]
    [[("best_match", CellVal.str "x")],
     [("best_match", CellVal.str "x"), ("c", CellVal.str "v"),
      ("id", CellVal.str "7")]] (by decide)
  exact ⟨h.1 0 (by decide), h.2 1 (by decide) _ (by decide)⟩

/-- **C4** — Conflict resolution is idempotent: applying the resolver to
its own output changes nothing, and the second application's scan marks no
losers at all. -/
theorem resolver_idempotent_c4 (matchCol simCol : String) (cols : List String)
    (rows : List Row) (hok : rowsTextOk matchCol rows) :
    resolveConflictsCore matchCol simCol cols
        (resolveConflictsCore matchCol simCol cols rows) =
      resolveConflictsCore matchCol simCol cols rows ∧
    (resolveScan matchCol simCol
      (resolveConflictsCore matchCol simCol cols rows)).losers = [] :=
  ⟨resolveCore_idem matchCol simCol cols rows,
    resolveScan_noLosers matchCol simCol (resolveConflictsCore matchCol simCol cols rows)
      (fun i j ri rj hi hj heq ht => resolveCore_unique matchCol simCol cols rows hi hj ht heq)⟩

/-- Witness for C4 at a concrete input with a genuine conflict. -/
theorem resolver_idempotent_c4_witness :
    resolveConflictsCore "best_match" "similarity" ["c"]
        (resolveConflictsCore "best_match" "similarity" ["c"]
          [[("best_match", CellVal.str "x"), ("c", CellVal.str "v")],
           [("best_match", CellVal.str "x")]]) =
      resolveConflictsCore "best_match" "similarity" ["c"]
        [[("best_match", CellVal.str "x"), ("c", CellVal.str "v")],
         [("best_match", CellVal.str "x")]] :=
  (resolver_idempotent_c4 "best_match" "similarity" ["c"] _ (by decide)).1

/-! ## A concrete evaluation of `best_match`

Used by several witnesses: with the constant log function, a reference
`"ab"` against the single candidate `"ab"` scores a perfect `1`. -/

theorem bestMatch_demo : bestMatch (fun _ => 1) "ab" ["ab"] (1/2) = some ("ab", 1) := by
  have hpre : prefilterShortlist ["ab"] [("ab", ["ab"])] = [("ab", ["ab"])] := by
    simp [prefilterShortlist, passesFilter, refOverlap, firstTokenPrefixFrac,
      commonPrefixLen, List.filterMap, maxHeavyCandidates, List.insertionSort,
      List.orderedInsert]
  have hdf : computeDocFreqs [["ab"]] = ([("ab", 1)], 1) := by decide
  have hd : directionalSimilarity (fun _ => 1) ["ab"] ["ab"] [("ab", 1)] 1 = 1 := by
    simp [directionalSimilarity, tokenIdf, dictGet, stopwords, tokenPositionWeight,
      bestTargetFor, tokenSimilarity, tokenSimThreshold, shiftWeight,
      noisePenaltyStrength]
    norm_num
  have hcs : candidateScore (fun _ => 1) ["ab"] ["ab"] [("ab", 1)] 1 = 1 := by
    simp [candidateScore, hd]
  have hscan : matchScan (fun _ => 1) "ab" ["ab"] = (1, some "ab") := by
    simp [matchScan, show tokenize "ab" = ["ab"] from by decide, hpre, hdf,
      bestScan, hcs]
  simp [bestMatch, hscan, show tokenize "ab" = ["ab"] from by decide]
  constructor
  · norm_num
  · norm_num [round4, roundHalfEven]

/-! ## Claim C5: column-name collisions in the row processor

`build_output_column_mapping` in `processor_utils.py` implements the
`_ref`/`_cand` disambiguation, but nothing in the repository calls it:
`MatchingWorker.run` hands `process_single_match` 8-tuples, so
`column_mapping` is `None` and `_make_output_key` falls back to the raw
column name — the candidate-side value then overwrites the reference-side
value under the shared name. -/

theorem makeOutputKey_none (col source : String) :
    makeOutputKey none col source = col := rfl

/-- Counterexample to C5 as stated: with the worker's call shape
(`column_mapping = None`), a column `"id"` selected from both sides ends up
as a single output column holding the candidate value `"C7"` (the
reference value `"R1"` is overwritten), and no `id_ref`/`id_cand` columns
exist. -/
theorem processor_overwrite_c5_counterexample :
    dictGet (processSingleMatch (fun _ => 1) [("name", "ab"), ("id", "R1")] "name"
        ["id"] [[("cname", "ab"), ("id", "C7")]] "cname" ["id"] (1/2) [] none) "id" =
      some (.str "C7") ∧
    dictGet (processSingleMatch (fun _ => 1) [("name", "ab"), ("id", "R1")] "name"
        ["id"] [[("cname", "ab"), ("id", "C7")]] "cname" ["id"] (1/2) [] none) "id_ref" =
      none ∧
    dictGet (processSingleMatch (fun _ => 1) [("name", "ab"), ("id", "R1")] "name"
        ["id"] [[("cname", "ab"), ("id", "C7")]] "cname" ["id"] (1/2) [] none) "id_cand" =
      none := by
  have hbm : bestMatch (fun _ => 1) "ab" ["ab"] (1/2) = some ("ab", 1) := bestMatch_demo
  have hbm' : bestMatch (fun _ => 1) "ab" ["ab"] (2⁻¹) = some ("ab", 1) := by
    rw [show ((2⁻¹ : ℚ)) = 1/2 by norm_num]
    exact bestMatch_demo
  refine ⟨?_, ?_, ?_⟩ <;>
    simp [processSingleMatch, dictGet, dictSet, dictContains, makeOutputKey,
      List.find?, hbm, hbm']

/-- **C5 (amended)** — In the worker's call path no column mapping is
passed, so when the same column name is selected from both sides the
produced record holds a single column under the shared name whose value is
the matched candidate row's value: the reference value is overwritten, and
no disambiguated `_ref`/`_cand` columns are produced.  (The two-column
split only happens when a mapping from `build_output_column_mapping` is
supplied, which no caller does.) -/
theorem processor_overwrite_c5 (logFn : ℚ → ℚ) (refRow : CsvRow) (refCol : String)
    (selRef : List String) (candRows : List CsvRow) (candCol : String)
    (selCand : List String) (t : ℚ) (colNames : List (String × String))
    {c m : String} {s : ℚ} {mr : CsvRow}
    (hsel : c ∈ selRef) (hcsel : c ∈ selCand)
    (hbm : bestMatch logFn ((dictGet refRow refCol).getD "")
      (candRows.map (fun r => (dictGet r candCol).getD "")) t = some (m, s))
    (hm : m ≠ "")
    (hfind : candRows.find? (fun r => (dictGet r candCol).getD "" = m) = some mr)
    (hcont : dictContains mr c = true) :
    dictGet (processSingleMatch logFn refRow refCol selRef candRows candCol selCand t
        colNames none) c =
      some (.str ((dictGet mr c).getD "")) := by
  simp only [processSingleMatch, hbm, makeOutputKey_none]
  rw [if_neg hm]
  simp only [hfind]
  refine (dictGet_foldl_setIf selCand (fun col => dictContains mr col)
    (fun col => CellVal.str ((dictGet mr col).getD "")) _ c).trans ?_
  rw [if_pos ⟨hcsel, hcont⟩]

/-- Witness for the amended C5 on the counterexample's input. -/
theorem processor_overwrite_c5_witness :
    dictGet (processSingleMatch (fun _ => 1) [("name", "ab"), ("id", "R1")] "name"
        ["id"] [[("cname", "ab"), ("id", "C7")]] "cname" ["id"] (1/2) [] none) "id" =
      some (.str ((dictGet [("cname", "ab"), ("id", "C7")] "id").getD "")) :=
  processor_overwrite_c5 (fun _ => 1) [("name", "ab"), ("id", "R1")] "name" ["id"]
    [[("cname", "ab"), ("id", "C7")]] "cname" ["id"] (1/2) []
    (by decide) (by decide)
    (by simpa [dictGet, List.find?] using bestMatch_demo)
    (by decide) (by decide) (by decide)

/-! ## Claim C6: the candidate prefilter -/

theorem filterMap_ite {α β : Type} (l : List α) (P : α → Prop) [DecidablePred P] (g : α → β) :
    (l.filterMap (fun a => if P a then some (g a) else none)) =
      (l.filter (fun a => decide (P a))).map g := by
  induction l with
  | nil => rfl
  | cons a t ih => by_cases h : P a <;> simp [h, ih]

/-- The prefilter when at least one candidate passes the cheap test. -/
theorem shortlist_eq_pos (refT : List String) (tokenized : List (String × List String))
    (h : ∃ p ∈ tokenized, passesFilter refT p.2) :
    prefilterShortlist refT tokenized =
      ((List.insertionSort scoreDesc
          ((tokenized.filter (fun p => decide (passesFilter refT p.2))).map
            (fun p => (cheapScore refT p.2, p)))).take maxHeavyCandidates).map (·.2) := by
  obtain ⟨p, hp, hpass⟩ := h
  have hne : (tokenized.filter (fun p => decide (passesFilter refT p.2))).map
      (fun p => (cheapScore refT p.2, p)) ≠ [] := by
    simp only [ne_eq, List.map_eq_nil_iff, List.filter_eq_nil_iff]
    push_neg
    exact ⟨p, hp, by simpa using hpass⟩
  simp only [prefilterShortlist, filterMap_ite]
  rw [if_neg hne]

/-- The prefilter fallback when nothing passes the cheap test. -/
theorem shortlist_eq_neg (refT : List String) (tokenized : List (String × List String))
    (h : ∀ p ∈ tokenized, ¬ passesFilter refT p.2) :
    prefilterShortlist refT tokenized = tokenized.take maxHeavyCandidates := by
  have hnil : (tokenized.filter (fun p => decide (passesFilter refT p.2))).map
      (fun p => (cheapScore refT p.2, p)) = [] := by
    simp only [List.map_eq_nil_iff, List.filter_eq_nil_iff]
    intro p hp
    simpa using h p hp
  simp only [prefilterShortlist, filterMap_ite]
  rw [if_pos hnil]

/-- Triples in the scored list record exactly the cheap score of their
candidate. -/
theorem mem_scored_inv (refT : List String) (tokenized : List (String × List String))
    {x : ℚ × String × List String}
    (hx : x ∈ (tokenized.filter (fun p => decide (passesFilter refT p.2))).map
      (fun p => (cheapScore refT p.2, p))) :
    x.1 = cheapScore refT x.2.2 ∧ x.2 ∈ tokenized ∧ passesFilter refT x.2.2 := by
  obtain ⟨p, hp, rfl⟩ := List.mem_map.mp hx
  have := List.mem_filter.mp hp
  exact ⟨rfl, this.1, by simpa using this.2⟩

/-- **C6** — Candidate prefilter behaviour, for a non-empty reference token
sequence: the shortlist is at most `MAX_HEAVY_CANDIDATES` long, non-empty
whenever the candidate list is, and drawn from the candidate list; when
some candidate passes (`overlap > 0` or `prefix_ratio ≥ 0.6`), the
shortlist holds only passing candidates, ranked by cheap score descending,
every passing candidate is kept whenever at most `MAX_HEAVY_CANDIDATES`
pass, and a passing candidate that is truncated away scores no higher than
anything kept; when no candidate passes, the shortlist is the first
`MAX_HEAVY_CANDIDATES` candidates in input order. -/
theorem prefilter_c6 (refT : List String) (tokenized : List (String × List String))
    (href : refT ≠ []) :
    (prefilterShortlist refT tokenized).length ≤ maxHeavyCandidates ∧
    (tokenized ≠ [] → prefilterShortlist refT tokenized ≠ []) ∧
    (∀ q ∈ prefilterShortlist refT tokenized, q ∈ tokenized) ∧
    ((∃ p ∈ tokenized, passesFilter refT p.2) →
      (∀ q ∈ prefilterShortlist refT tokenized, passesFilter refT q.2) ∧
      (prefilterShortlist refT tokenized).Pairwise
        (fun p q => cheapScore refT q.2 ≤ cheapScore refT p.2)) ∧
    (∀ p ∈ tokenized, passesFilter refT p.2 → p ∉ prefilterShortlist refT tokenized →
      ∀ q ∈ prefilterShortlist refT tokenized, cheapScore refT p.2 ≤ cheapScore refT q.2) ∧
    ((∀ p ∈ tokenized, ¬ passesFilter refT p.2) →
      prefilterShortlist refT tokenized = tokenized.take maxHeavyCandidates) ∧
    (tokenized.countP (fun p => decide (passesFilter refT p.2)) ≤ maxHeavyCandidates →
      ∀ p ∈ tokenized, passesFilter refT p.2 → p ∈ prefilterShortlist refT tokenized) := by
  by_cases hex : ∃ p ∈ tokenized, passesFilter refT p.2
  · have heq := shortlist_eq_pos refT tokenized hex
    set scored := (tokenized.filter (fun p => decide (passesFilter refT p.2))).map
      (fun p => (cheapScore refT p.2, p)) with hscored
    have hperm : List.Perm (List.insertionSort scoreDesc scored) scored :=
      List.perm_insertionSort scoreDesc scored
    have hsorted : List.Pairwise scoreDesc (List.insertionSort scoreDesc scored) :=
      List.sorted_insertionSort scoreDesc scored
    have hmem_sort : ∀ x, x ∈ List.insertionSort scoreDesc scored → x ∈ scored :=
      fun x hx => hperm.mem_iff.mp hx
    have hmem_take : ∀ x, x ∈ (List.insertionSort scoreDesc scored).take maxHeavyCandidates →
        x ∈ scored :=
      fun x hx => hmem_sort x (List.mem_of_mem_take hx)
    refine ⟨?_, ?_, ?_, fun _ => ⟨?_, ?_⟩, ?_, ?_, ?_⟩
    · rw [heq, List.length_map]
      exact (List.length_take_le _ _)
    · intro htok
      rw [heq]
      obtain ⟨p, hp, hpass⟩ := hex
      have hscne : scored ≠ [] := by
        simp only [hscored, ne_eq, List.map_eq_nil_iff, List.filter_eq_nil_iff]
        push_neg
        exact ⟨p, hp, by simpa using hpass⟩
      have : List.insertionSort scoreDesc scored ≠ [] := by
        intro hnil
        exact hscne (List.Perm.nil_eq (hnil ▸ hperm)).symm
      simp only [ne_eq, List.map_eq_nil_iff]
      intro htake
      rw [List.take_eq_nil_iff] at htake
      rcases htake with h64 | hsnil
      · exact absurd h64 (by decide)
      · exact this hsnil
    · intro q hq
      rw [heq] at hq
      obtain ⟨x, hx, rfl⟩ := List.mem_map.mp hq
      exact (mem_scored_inv refT tokenized (hmem_take x hx)).2.1
    · intro q hq
      rw [heq] at hq
      obtain ⟨x, hx, rfl⟩ := List.mem_map.mp hq
      exact (mem_scored_inv refT tokenized (hmem_take x hx)).2.2
    · rw [heq, List.pairwise_map]
      refine List.Pairwise.imp_of_mem ?_
        ((hsorted.sublist (List.take_sublist _ _)))
      intro a b ha hb hab
      have hia := (mem_scored_inv refT tokenized (hmem_take a ha)).1
      have hib := (mem_scored_inv refT tokenized (hmem_take b hb)).1
      rw [← hia, ← hib]
      exact hab
    · intro p hp hpass hnot q hq
      have hpmem : (cheapScore refT p.2, p) ∈ scored := by
        rw [hscored]
        exact List.mem_map.mpr ⟨p, List.mem_filter.mpr ⟨hp, by simpa using hpass⟩, rfl⟩
      have hpsort : (cheapScore refT p.2, p) ∈ List.insertionSort scoreDesc scored :=
        hperm.mem_iff.mpr hpmem
      rw [← List.take_append_drop maxHeavyCandidates (List.insertionSort scoreDesc scored)]
        at hpsort
      rcases List.mem_append.mp hpsort with hin | hin
      · exfalso
        apply hnot
        rw [heq]
        exact List.mem_map.mpr ⟨_, hin, rfl⟩
      · rw [heq] at hq
        obtain ⟨x, hx, rfl⟩ := List.mem_map.mp hq
        have hpair := (List.pairwise_append.mp
          ((List.take_append_drop maxHeavyCandidates
            (List.insertionSort scoreDesc scored)) ▸ hsorted)).2.2
        have := hpair x hx _ hin
        have hix := (mem_scored_inv refT tokenized (hmem_take x hx)).1
        rw [← hix]
        exact this
    · intro hall
      obtain ⟨p, hp, hpass⟩ := hex
      exact absurd hpass (hall p hp)
    · intro hcount p hp hpass
      have hlen : scored.length ≤ maxHeavyCandidates := by
        rw [hscored, List.length_map, ← List.countP_eq_length_filter]
        exact hcount
      have hlen' : (List.insertionSort scoreDesc scored).length ≤ maxHeavyCandidates := by
        rw [hperm.length_eq]
        exact hlen
      have htake : (List.insertionSort scoreDesc scored).take maxHeavyCandidates =
          List.insertionSort scoreDesc scored := List.take_of_length_le hlen'
      rw [heq, htake]
      refine List.mem_map.mpr ⟨(cheapScore refT p.2, p), ?_, rfl⟩
      exact hperm.mem_iff.mpr
        (List.mem_map.mpr ⟨p, List.mem_filter.mpr ⟨hp, by simpa using hpass⟩, rfl⟩)
  · push_neg at hex
    have heq := shortlist_eq_neg refT tokenized hex
    refine ⟨?_, ?_, ?_, ?_, ?_, fun _ => heq, ?_⟩
    · rw [heq]
      exact List.length_take_le _ _
    · intro htok
      rw [heq]
      simp only [ne_eq, List.take_eq_nil_iff]
      push_neg
      exact ⟨by decide, htok⟩
    · intro q hq
      rw [heq] at hq
      exact List.mem_of_mem_take hq
    · rintro ⟨p, hp, hpass⟩
      exact absurd hpass (hex p hp)
    · intro p hp hpass
      exact absurd hpass (hex p hp)
    · intro _ p hp hpass
      exact absurd hpass (hex p hp)

/-- Witness for C6 at a concrete input: candidate `"ab"` passes the cheap
test against reference `["ab"]`, candidate `"zq"` does not; the shortlist
is non-empty, bounded, and holds only passing candidates. -/
theorem prefilter_c6_witness :
    (prefilterShortlist ["ab"] [("ab", ["ab"]), ("zq", ["zq"])]).length ≤
      maxHeavyCandidates ∧
    prefilterShortlist ["ab"] [("ab", ["ab"]), ("zq", ["zq"])] ≠ [] ∧
    ∀ q ∈ prefilterShortlist ["ab"] [("ab", ["ab"]), ("zq", ["zq"])],
      passesFilter ["ab"] q.2 := by
  have h := prefilter_c6 ["ab"] [("ab", ["ab"]), ("zq", ["zq"])] (by decide)
  have hov : refOverlap ["ab"] ["ab"] = 1 := by simp [refOverlap]
  have hpass : passesFilter ["ab"] ["ab"] := Or.inl (by rw [hov]; norm_num)
  exact ⟨h.1, h.2.1 (by decide),
    (h.2.2.2.1 ⟨("ab", ["ab"]), by decide, hpass⟩).1⟩

/-! ## Claim C7: the token similarity oracle

The ordered rules hold and the result always lies in `[0, 1]`, but the
claimed symmetry fails in the final alignment branch:
`difflib.SequenceMatcher.ratio` is not symmetric (its greedy matching-block
decomposition depends on the argument order), and `_token_similarity` does
not symmetrise it.  `"tide"`/`"diet"` is a counterexample: one direction
finds only the matching block `"t"`, the other finds `"d"` and `"e"`. -/

theorem string_ne_empty_length {a : String} (h : a ≠ "") : a.length ≠ 0 := by
  intro hlen
  exact h (by
    cases a with
    | mk data =>
      cases data with
      | nil => rfl
      | cons c cs => simp [String.length] at hlen)

/-- **C7 (amended)** — Token similarity rules, applied in order: the result
is in `[0, 1]`; either token empty gives `0`; equal tokens give `1`;
a prefix or substring relation gives `0.9`; a length gap that caps the
alignment ratio below the token threshold `0.8` gives `0`; otherwise the
result is the clamped character-alignment ratio.  The early rules are
symmetric, but the final alignment branch need not be (see the
counterexample), so full symmetry does not hold. -/
theorem token_similarity_c7 (a b : String) :
    (0 ≤ tokenSimilarity a b ∧ tokenSimilarity a b ≤ 1) ∧
    (a = "" ∨ b = "" → tokenSimilarity a b = 0) ∧
    (¬(a = "" ∨ b = "") → a = b → tokenSimilarity a b = 1) ∧
    (¬(a = "" ∨ b = "") → a ≠ b →
      (a.toList.isPrefixOf b.toList ∨ b.toList.isPrefixOf a.toList ∨
        substrOf a b = true ∨ substrOf b a = true) →
      tokenSimilarity a b = 9/10) ∧
    (¬(a = "" ∨ b = "") → a ≠ b →
      ¬(a.toList.isPrefixOf b.toList ∨ b.toList.isPrefixOf a.toList ∨
        substrOf a b = true ∨ substrOf b a = true) →
      (((max a.length b.length : ℕ) : ℚ) - |(a.length : ℚ) - (b.length : ℚ)|) /
          ((max a.length b.length : ℕ) : ℚ) < tokenSimThreshold →
      tokenSimilarity a b = 0) ∧
    (¬(a = "" ∨ b = "") → a ≠ b →
      ¬(a.toList.isPrefixOf b.toList ∨ b.toList.isPrefixOf a.toList ∨
        substrOf a b = true ∨ substrOf b a = true) →
      ¬((((max a.length b.length : ℕ) : ℚ) - |(a.length : ℚ) - (b.length : ℚ)|) /
          ((max a.length b.length : ℕ) : ℚ) < tokenSimThreshold) →
      tokenSimilarity a b = max 0 (min 1 (seqRatio a b))) ∧
    ((a = "" ∨ b = "" ∨ a = b ∨
      (a.toList.isPrefixOf b.toList ∨ b.toList.isPrefixOf a.toList ∨
        substrOf a b = true ∨ substrOf b a = true) ∨
      (((max a.length b.length : ℕ) : ℚ) - |(a.length : ℚ) - (b.length : ℚ)|) /
          ((max a.length b.length : ℕ) : ℚ) < tokenSimThreshold) →
      tokenSimilarity a b = tokenSimilarity b a) := by
  have hmax : ∀ {x y : String}, ¬(x = "" ∨ y = "") → max x.length y.length ≠ 0 := by
    intro x y h hm
    rw [Nat.max_eq_zero_iff] at hm
    exact (string_ne_empty_length (fun hx => h (Or.inl hx))) hm.1
  refine ⟨?_, ?_, ?_, ?_, ?_, ?_, ?_⟩
  · by_cases h1 : a = "" ∨ b = ""
    · simp only [tokenSimilarity, if_pos h1]
      norm_num
    · simp only [tokenSimilarity, if_neg h1]
      by_cases h2 : a = b
      · rw [if_pos h2]; norm_num
      · rw [if_neg h2]
        by_cases h3 : a.toList.isPrefixOf b.toList = true ∨ b.toList.isPrefixOf a.toList = true ∨
            substrOf a b = true ∨ substrOf b a = true
        · rw [if_pos h3]; norm_num
        · rw [if_neg h3, if_neg (hmax h1)]
          by_cases h4 : (((max a.length b.length : ℕ) : ℚ) -
              |(a.length : ℚ) - (b.length : ℚ)|) / ((max a.length b.length : ℕ) : ℚ) <
              tokenSimThreshold
          · rw [if_pos h4]; norm_num
          · rw [if_neg h4]
            constructor
            · exact le_max_left 0 _
            · exact max_le (by norm_num) (min_le_left 1 _)
  · intro h1
    simp only [tokenSimilarity, if_pos h1]
  · intro h1 h2
    simp only [tokenSimilarity, if_neg h1, if_pos h2]
  · intro h1 h2 h3
    simp only [tokenSimilarity, if_neg h1, if_neg h2, if_pos h3]
  · intro h1 h2 h3 h4
    simp only [tokenSimilarity, if_neg h1, if_neg h2, if_neg h3, if_neg (hmax h1), if_pos h4]
  · intro h1 h2 h3 h4
    simp only [tokenSimilarity, if_neg h1, if_neg h2, if_neg h3, if_neg (hmax h1), if_neg h4]
  · intro hsym
    by_cases h1 : a = "" ∨ b = ""
    · simp only [tokenSimilarity, if_pos h1, if_pos (Or.symm h1)]
    · by_cases h2 : a = b
      · rw [h2]
      · have h1' : ¬(b = "" ∨ a = "") := fun h => h1 (Or.symm h)
        have h2' : ¬(b = a) := fun h => h2 h.symm
        by_cases h3 : a.toList.isPrefixOf b.toList = true ∨ b.toList.isPrefixOf a.toList = true ∨
            substrOf a b = true ∨ substrOf b a = true
        · have h3' : b.toList.isPrefixOf a.toList = true ∨ a.toList.isPrefixOf b.toList = true ∨
              substrOf b a = true ∨ substrOf a b = true := by tauto
          simp only [tokenSimilarity, if_neg h1, if_neg h1', if_neg h2, if_neg h2',
            if_pos h3, if_pos h3']
        · have h3' : ¬(b.toList.isPrefixOf a.toList = true ∨ a.toList.isPrefixOf b.toList = true ∨
              substrOf b a = true ∨ substrOf a b = true) := by tauto
          rcases hsym with h | h | h | h | h
          · exact absurd (Or.inl h) h1
          · exact absurd (Or.inr h) h1
          · exact absurd h h2
          · exact absurd h h3
          · have h4' : (((max b.length a.length : ℕ) : ℚ) -
                |(b.length : ℚ) - (a.length : ℚ)|) / ((max b.length a.length : ℕ) : ℚ) <
                tokenSimThreshold := by
              rw [Nat.max_comm b.length a.length, abs_sub_comm]
              exact h
            simp only [tokenSimilarity, if_neg h1, if_neg h1', if_neg h2, if_neg h2',
              if_neg h3, if_neg h3', if_neg (hmax h1), if_neg (hmax h1'),
              if_pos h, if_pos h4']

/-- Counterexample to the symmetry asserted by C7:
`_token_similarity("tide", "diet") = 0.25` but
`_token_similarity("diet", "tide") = 0.5`. -/
theorem token_similarity_c7_counterexample :
    tokenSimilarity "tide" "diet" ≠ tokenSimilarity "diet" "tide" := by
  have e1 : tokenSimilarity "tide" "diet" = 1/4 := by
    have h1 : matchTotal ['t', 'i', 'd', 'e'] ['d', 'i', 'e', 't'] = 1 := by decide
    have hr : seqRatio "tide" "diet" = 1/4 := by
      simp [seqRatio, h1, show "tide".length = 4 from rfl, show "diet".length = 4 from rfl]
      norm_num
    rw [tokenSimilarity, if_neg (by decide), if_neg (by decide), if_neg (by decide)]
    simp only [show "tide".length = 4 from rfl, show "diet".length = 4 from rfl,
      tokenSimThreshold]
    rw [if_neg (by norm_num), if_neg (by norm_num), hr]
    norm_num
  have e2 : tokenSimilarity "diet" "tide" = 1/2 := by
    have h1 : matchTotal ['d', 'i', 'e', 't'] ['t', 'i', 'd', 'e'] = 2 := by decide
    have hr : seqRatio "diet" "tide" = 1/2 := by
      simp [seqRatio, h1, show "tide".length = 4 from rfl, show "diet".length = 4 from rfl]
      norm_num
    rw [tokenSimilarity, if_neg (by decide), if_neg (by decide), if_neg (by decide)]
    simp only [show "tide".length = 4 from rfl, show "diet".length = 4 from rfl,
      tokenSimThreshold]
    rw [if_neg (by norm_num), if_neg (by norm_num), hr]
    norm_num
  rw [e1, e2]
  norm_num

/-- Witness for the amended C7: the substring rule gives `0.9` on
`("ab", "abcd")`, inside `[0, 1]`. -/
theorem token_similarity_c7_witness :
    tokenSimilarity "ab" "abcd" = 9/10 ∧ 0 ≤ tokenSimilarity "ab" "abcd" ∧
      tokenSimilarity "ab" "abcd" ≤ 1 := by
  have h := token_similarity_c7 "ab" "abcd"
  exact ⟨h.2.2.2.1 (by decide) (by decide) (by decide), (h.1).1, (h.1).2⟩

/-! ## Scan invariants of `best_match` -/

theorem candidateScore_nonneg (logFn : ℚ → ℚ) (refT candT : List String)
    (df : List (String × Nat)) (docCount : Nat) :
    0 ≤ candidateScore logFn refT candT df docCount :=
  le_max_left 0 _

theorem candidateScore_le_one (logFn : ℚ → ℚ) (refT candT : List String)
    (df : List (String × Nat)) (docCount : Nat) :
    candidateScore logFn refT candT df docCount ≤ 1 :=
  max_le (by norm_num) (min_le_left 1 _)

/-- The shortlist only contains candidates from the input list. -/
theorem mem_shortlist_sub (refT : List String) (tokenized : List (String × List String))
    {q : String × List String} (hq : q ∈ prefilterShortlist refT tokenized) :
    q ∈ tokenized := by
  by_cases hex : ∃ p ∈ tokenized, passesFilter refT p.2
  · rw [shortlist_eq_pos refT tokenized hex] at hq
    obtain ⟨x, hx, rfl⟩ := List.mem_map.mp hq
    have hxs := List.mem_of_mem_take hx
    have hmem := (List.perm_insertionSort scoreDesc _).mem_iff.mp hxs
    exact (mem_scored_inv refT tokenized hmem).2.1
  · push_neg at hex
    rw [shortlist_eq_neg refT tokenized hex] at hq
    exact List.mem_of_mem_take hq

/-- Invariants of the scoring loop: an empty best candidate comes with a
zero best score, the best score lies in `[0, 1]`, and a recorded best
candidate has a strictly positive score and non-empty tokens drawn from
the scanned list. -/
theorem bestScan_inv (logFn : ℚ → ℚ) (refT : List String)
    (limited : List (String × List String)) (df : List (String × Nat)) (docCount : Nat) :
    ((bestScan logFn refT limited df docCount).2 = none →
      (bestScan logFn refT limited df docCount).1 = 0) ∧
    0 ≤ (bestScan logFn refT limited df docCount).1 ∧
    (bestScan logFn refT limited df docCount).1 ≤ 1 ∧
    (∀ c, (bestScan logFn refT limited df docCount).2 = some c →
      0 < (bestScan logFn refT limited df docCount).1 ∧
        ∃ toks, (c, toks) ∈ limited ∧ toks ≠ []) := by
  suffices haux : ∀ (l : List (String × List String)) (acc : ℚ × Option String),
      (∀ p ∈ l, p ∈ limited) →
      (acc.2 = none → acc.1 = 0) → 0 ≤ acc.1 → acc.1 ≤ 1 →
      (∀ c, acc.2 = some c → 0 < acc.1 ∧ ∃ toks, (c, toks) ∈ limited ∧ toks ≠ []) →
      ((l.foldl (fun acc p =>
          if p.2 = [] then acc
          else
            let s := candidateScore logFn refT p.2 df docCount
            if acc.1 < s then (s, some p.1) else acc) acc).2 = none →
        (l.foldl _ acc).1 = 0) ∧
      0 ≤ (l.foldl _ acc).1 ∧ (l.foldl _ acc).1 ≤ 1 ∧
      (∀ c, (l.foldl _ acc).2 = some c →
        0 < (l.foldl _ acc).1 ∧ ∃ toks, (c, toks) ∈ limited ∧ toks ≠ []) by
    exact haux limited (0, none) (fun p hp => hp) (fun _ => rfl) le_rfl (by norm_num)
      (fun c hc => Option.noConfusion hc)
  intro l
  induction l with
  | nil =>
    intro acc _ h1 h2 h3 h4
    exact ⟨h1, h2, h3, h4⟩
  | cons p rest ih =>
    intro acc hsub h1 h2 h3 h4
    simp only [List.foldl_cons]
    by_cases hp : p.2 = []
    · rw [if_pos hp]
      exact ih acc (fun q hq => hsub q (List.mem_cons_of_mem _ hq)) h1 h2 h3 h4
    · rw [if_neg hp]
      by_cases hlt : acc.1 < candidateScore logFn refT p.2 df docCount
      · simp only [if_pos hlt]
        refine ih _ (fun q hq => hsub q (List.mem_cons_of_mem _ hq))
          (fun hnone => Option.noConfusion hnone)
          (candidateScore_nonneg logFn refT p.2 df docCount)
          (candidateScore_le_one logFn refT p.2 df docCount) ?_
        intro c hc
        obtain rfl : p.1 = c := Option.some.inj hc
        refine ⟨lt_of_le_of_lt h2 hlt, p.2, ?_, hp⟩
        rw [Prod.mk.eta]
        exact hsub p (List.mem_cons_self _ _)
      · simp only [if_neg hlt]
        exact ih acc (fun q hq => hsub q (List.mem_cons_of_mem _ hq)) h1 h2 h3 h4

/-- Invariants of `matchScan`: empty best candidate forces a zero score,
the score is in `[0, 1]`, and a recorded candidate comes from the input
list with a non-empty tokenisation and a strictly positive score. -/
theorem matchScan_inv (logFn : ℚ → ℚ) (ref : String) (cands : List String) :
    ((matchScan logFn ref cands).2 = none → (matchScan logFn ref cands).1 = 0) ∧
    0 ≤ (matchScan logFn ref cands).1 ∧ (matchScan logFn ref cands).1 ≤ 1 ∧
    (∀ c, (matchScan logFn ref cands).2 = some c →
      0 < (matchScan logFn ref cands).1 ∧ c ∈ cands ∧ tokenize c ≠ []) := by
  have h := bestScan_inv logFn (tokenize ref)
    (prefilterShortlist (tokenize ref) (cands.map (fun c => (c, tokenize c))))
    (computeDocFreqs ((prefilterShortlist (tokenize ref)
      (cands.map (fun c => (c, tokenize c)))).map (·.2))).1
    (computeDocFreqs ((prefilterShortlist (tokenize ref)
      (cands.map (fun c => (c, tokenize c)))).map (·.2))).2
  refine ⟨h.1, h.2.1, h.2.2.1, fun c hc => ?_⟩
  obtain ⟨hpos, toks, hmem, hne⟩ := h.2.2.2 c hc
  have hmem' := mem_shortlist_sub (tokenize ref) (cands.map (fun c => (c, tokenize c))) hmem
  obtain ⟨c', hc', heq⟩ := List.mem_map.mp hmem'
  obtain ⟨rfl, rfl⟩ : c' = c ∧ tokenize c' = toks := by
    exact ⟨congrArg Prod.fst heq, congrArg Prod.snd heq⟩
  exact ⟨hpos, hc', hne⟩

/-! ## Rounding bounds -/

theorem roundHalfEven_nonneg {q : ℚ} (h : 0 ≤ q) : 0 ≤ roundHalfEven q := by
  unfold roundHalfEven
  have hf : (0 : ℤ) ≤ ⌊q⌋ := Int.floor_nonneg.mpr h
  split_ifs <;> omega

theorem roundHalfEven_le {q : ℚ} {n : ℕ} (h : q ≤ (n : ℚ)) : roundHalfEven q ≤ (n : ℤ) := by
  unfold roundHalfEven
  have hf : ⌊q⌋ ≤ (n : ℤ) := by
    have := Int.floor_le_floor h
    rwa [Int.floor_natCast] at this
  split_ifs with h1 h2 h3
  · exact hf
  · have hq : (⌊q⌋ : ℚ) + 1/2 < q := by linarith
    have : (⌊q⌋ : ℚ) < (n : ℚ) := by linarith
    have hlt : ⌊q⌋ < (n : ℤ) := by exact_mod_cast this
    omega
  · exact hf
  · have hq1 : (1 : ℚ)/2 ≤ q - ⌊q⌋ := not_lt.mp h1
    have hq2 : q - ⌊q⌋ ≤ 1/2 := not_lt.mp h2
    have heq : (⌊q⌋ : ℚ) = q - 1/2 := by linarith
    have : (⌊q⌋ : ℚ) < (n : ℚ) := by
      rw [heq]; linarith
    have hlt : ⌊q⌋ < (n : ℤ) := by exact_mod_cast this
    omega

theorem round4_nonneg {q : ℚ} (h : 0 ≤ q) : 0 ≤ round4 q := by
  unfold round4
  have := roundHalfEven_nonneg (q := q * 10000) (by positivity)
  positivity

theorem round4_le_one {q : ℚ} (h : q ≤ 1) : round4 q ≤ 1 := by
  unfold round4
  rw [div_le_one (by norm_num)]
  have hq : q * 10000 ≤ ((10000 : ℕ) : ℚ) := by push_cast; linarith
  have := roundHalfEven_le hq
  exact_mod_cast this

/-! ## Claims C8–C10: `best_match` -/

/-- The structure of `best_match` in terms of its threshold-independent
scan. -/
theorem bestMatch_eq (logFn : ℚ → ℚ) (ref : String) (cands : List String) (t : ℚ) :
    bestMatch logFn ref cands t =
      if cands = [] then none
      else if tokenize ref = [] then none
      else
        match (matchScan logFn ref cands).2 with
        | none => none
        | some c =>
          if (matchScan logFn ref cands).1 < t then none
          else some (c, round4 (matchScan logFn ref cands).1) := rfl

/-- **C8** — Threshold monotonicity: lowering the threshold preserves a
found match exactly (same candidate, same score); the threshold only
filters the final best score and never re-ranks. -/
theorem threshold_monotone_c8 (logFn : ℚ → ℚ) (ref : String) (cands : List String)
    {t1 t2 : ℚ} {c : String} {s : ℚ} (hlt : t1 < t2)
    (hm : bestMatch logFn ref cands t2 = some (c, s)) :
    bestMatch logFn ref cands t1 = some (c, s) := by
  rw [bestMatch_eq] at hm ⊢
  by_cases h0 : cands = []
  · rw [if_pos h0] at hm
    exact Option.noConfusion hm
  rw [if_neg h0] at hm ⊢
  by_cases h1 : tokenize ref = []
  · rw [if_pos h1] at hm
    exact Option.noConfusion hm
  rw [if_neg h1] at hm ⊢
  cases hscan : (matchScan logFn ref cands).2 with
  | none =>
    rw [hscan] at hm
    exact Option.noConfusion hm
  | some c' =>
    rw [hscan] at hm
    dsimp only at hm ⊢
    by_cases h2 : (matchScan logFn ref cands).1 < t2
    · rw [if_pos h2] at hm
      exact Option.noConfusion hm
    · rw [if_neg h2] at hm
      rw [if_neg (fun hx => h2 (lt_trans hx hlt))]
      exact hm

/-- Witness for C8: the match found at threshold `1/2` is found unchanged
at threshold `1/4`. -/
theorem threshold_monotone_c8_witness :
    bestMatch (fun _ => 1) "ab" ["ab"] (1/4) = some ("ab", 1) :=
  threshold_monotone_c8 (fun _ => 1) "ab" ["ab"] (by norm_num) bestMatch_demo

/-- **C9 (amended)** — No-match is an explicit empty result: an empty
candidate pool, an empty reference tokenisation, or a best score below the
threshold each yield `none`; conversely an empty result means one of
those three held or no candidate scored positively (`best_candidate` stays
`None`), and for a strictly positive threshold the three listed conditions
characterise the empty outcome exactly.  A returned match always carries a
non-empty candidate text and a score in `[0, 1]` (in this embedding the
score exists iff the match does). -/
theorem no_match_c9 (logFn : ℚ → ℚ) (ref : String) (cands : List String) (t : ℚ) :
    (cands = [] ∨ tokenize ref = [] ∨ (matchScan logFn ref cands).1 < t →
      bestMatch logFn ref cands t = none) ∧
    (bestMatch logFn ref cands t = none →
      cands = [] ∨ tokenize ref = [] ∨ (matchScan logFn ref cands).1 < t ∨
        (matchScan logFn ref cands).2 = none) ∧
    (0 < t → (bestMatch logFn ref cands t = none ↔
      cands = [] ∨ tokenize ref = [] ∨ (matchScan logFn ref cands).1 < t)) ∧
    (∀ c s, bestMatch logFn ref cands t = some (c, s) → c ≠ "" ∧ 0 ≤ s ∧ s ≤ 1) := by
  have hinv := matchScan_inv logFn ref cands
  have part1 : cands = [] ∨ tokenize ref = [] ∨ (matchScan logFn ref cands).1 < t →
      bestMatch logFn ref cands t = none := by
    intro h
    rw [bestMatch_eq]
    by_cases h0 : cands = []
    · rw [if_pos h0]
    rw [if_neg h0]
    by_cases h1 : tokenize ref = []
    · rw [if_pos h1]
    rw [if_neg h1]
    rcases h with h | h | h
    · exact absurd h h0
    · exact absurd h h1
    · cases hscan : (matchScan logFn ref cands).2 with
      | none => rfl
      | some c =>
        dsimp only
        rw [if_pos h]
  have part2 : bestMatch logFn ref cands t = none →
      cands = [] ∨ tokenize ref = [] ∨ (matchScan logFn ref cands).1 < t ∨
        (matchScan logFn ref cands).2 = none := by
    intro h
    rw [bestMatch_eq] at h
    by_cases h0 : cands = []
    · exact Or.inl h0
    rw [if_neg h0] at h
    by_cases h1 : tokenize ref = []
    · exact Or.inr (Or.inl h1)
    rw [if_neg h1] at h
    cases hscan : (matchScan logFn ref cands).2 with
    | none => exact Or.inr (Or.inr (Or.inr rfl))
    | some c =>
      rw [hscan] at h
      dsimp only at h
      by_cases h2 : (matchScan logFn ref cands).1 < t
      · exact Or.inr (Or.inr (Or.inl h2))
      · rw [if_neg h2] at h
        exact Option.noConfusion h
  refine ⟨part1, part2, fun ht => ⟨fun h => ?_, part1⟩, fun c s h => ?_⟩
  · rcases part2 h with h' | h' | h' | h'
    · exact Or.inl h'
    · exact Or.inr (Or.inl h')
    · exact Or.inr (Or.inr h')
    · exact Or.inr (Or.inr (by rw [hinv.1 h']; exact ht))
  · rw [bestMatch_eq] at h
    by_cases h0 : cands = []
    · rw [if_pos h0] at h
      exact Option.noConfusion h
    rw [if_neg h0] at h
    by_cases h1 : tokenize ref = []
    · rw [if_pos h1] at h
      exact Option.noConfusion h
    rw [if_neg h1] at h
    cases hscan : (matchScan logFn ref cands).2 with
    | none =>
      rw [hscan] at h
      exact Option.noConfusion h
    | some c' =>
      rw [hscan] at h
      dsimp only at h
      by_cases h2 : (matchScan logFn ref cands).1 < t
      · rw [if_pos h2] at h
        exact Option.noConfusion h
      · rw [if_neg h2] at h
        have hcs : c' = c ∧ round4 (matchScan logFn ref cands).1 = s := by
          have := Option.some.inj h
          exact ⟨congrArg Prod.fst this, congrArg Prod.snd this⟩
        obtain ⟨htok⟩ : tokenize c' ≠ [] ∧ True :=
          ⟨(hinv.2.2.2 c' hscan).2.2, trivial⟩
        refine ⟨?_, ?_, ?_⟩
        · rw [← hcs.1]
          intro hc
          rw [hc] at htok
          exact htok rfl
        · rw [← hcs.2]
          exact round4_nonneg hinv.2.1
        · rw [← hcs.2]
          exact round4_le_one hinv.2.2.1

/-- Counterexample to the exactness part of C9: at threshold `0` (a legal
threshold), a pool whose only candidate tokenises to nothing gives the
empty outcome even though the pool is non-empty, the reference tokenises,
and the best score (`0`) is not below the threshold. -/
theorem no_match_c9_counterexample :
    bestMatch (fun _ => 1) "a" ["#"] 0 = none ∧
    (["#"] : List String) ≠ [] ∧ tokenize "a" ≠ [] ∧
    ¬((matchScan (fun _ => 1) "a" ["#"]).1 < 0) := by
  have hsl : prefilterShortlist ["a"] [("#", [])] = [("#", [])] := by
    rw [shortlist_eq_neg]
    · decide
    · intro p hp
      have hp' : p = ("#", ([] : List String)) := by
        simpa using hp
      rw [hp']
      rintro (h | h)
      · rw [show refOverlap ["a"] [] = 0 from by simp [refOverlap]] at h
        exact absurd h (by norm_num)
      · rw [show firstTokenPrefixFrac ["a"] [] = 0 from rfl] at h
        exact absurd h (by norm_num)
  have hscan : matchScan (fun _ => 1) "a" ["#"] = (0, none) := by
    simp only [matchScan, show tokenize "a" = ["a"] from by decide,
      show tokenize "#" = [] from by decide, List.map_cons, List.map_nil, hsl]
    simp [bestScan]
  refine ⟨?_, by decide, by decide, by rw [hscan]; norm_num⟩
  rw [bestMatch_eq, if_neg (by decide), if_neg (by decide), hscan]

/-- Witness for the amended C9 at a concrete input with a match. -/
theorem no_match_c9_witness :
    "ab" ≠ "" ∧ (0 : ℚ) ≤ 1 ∧ (1 : ℚ) ≤ 1 :=
  (no_match_c9 (fun _ => 1) "ab" ["ab"] (1/2)).2.2.2 "ab" 1 bestMatch_demo

/-- **C10** — Postcondition of match selection: a returned match is
exactly one of the input candidates, its tokenisation is non-empty (so the
text is non-empty), the score compared against the threshold before
rounding was strictly positive, and the returned score is that score
rounded to four digits. -/
theorem match_postcondition_c10 (logFn : ℚ → ℚ) (ref : String) (cands : List String)
    (t : ℚ) {c : String} {s : ℚ} (hm : bestMatch logFn ref cands t = some (c, s)) :
    c ∈ cands ∧ tokenize c ≠ [] ∧ c ≠ "" ∧ 0 < (matchScan logFn ref cands).1 ∧
      s = round4 ((matchScan logFn ref cands).1) := by
  have hinv := matchScan_inv logFn ref cands
  rw [bestMatch_eq] at hm
  by_cases h0 : cands = []
  · rw [if_pos h0] at hm
    exact Option.noConfusion hm
  rw [if_neg h0] at hm
  by_cases h1 : tokenize ref = []
  · rw [if_pos h1] at hm
    exact Option.noConfusion hm
  rw [if_neg h1] at hm
  cases hscan : (matchScan logFn ref cands).2 with
  | none =>
    rw [hscan] at hm
    exact Option.noConfusion hm
  | some c' =>
    rw [hscan] at hm
    dsimp only at hm
    by_cases h2 : (matchScan logFn ref cands).1 < t
    · rw [if_pos h2] at hm
      exact Option.noConfusion hm
    · rw [if_neg h2] at hm
      have hcs : c' = c ∧ round4 (matchScan logFn ref cands).1 = s := by
        have := Option.some.inj hm
        exact ⟨congrArg Prod.fst this, congrArg Prod.snd this⟩
      obtain ⟨hpos, hc', htok⟩ := hinv.2.2.2 c' hscan
      refine ⟨hcs.1 ▸ hc', hcs.1 ▸ htok, ?_, hpos, hcs.2.symm⟩
      rw [← hcs.1]
      intro hc
      rw [hc] at htok
      exact htok rfl

/-- Witness for C10 on the concrete match of `bestMatch_demo`. -/
theorem match_postcondition_c10_witness :
    "ab" ∈ ["ab"] ∧ tokenize "ab" ≠ [] ∧ "ab" ≠ "" ∧
      0 < (matchScan (fun _ => 1) "ab" ["ab"]).1 ∧
      (1 : ℚ) = round4 ((matchScan (fun _ => 1) "ab" ["ab"]).1) :=
  match_postcondition_c10 (fun _ => 1) "ab" ["ab"] (1/2) bestMatch_demo

end Uxas

section SanityChecks

open Uxas

example : tokenize "Alpha Corp." = ["alpha", "corp"] := by decide
example : tokenize "ab, cd--ef" = ["ab", "cd", "ef"] := by decide
example : tokenize "A_B 9x" = ["a_b", "9x"] := by decide
example : tokenize "--a" = ["a"] := by decide
example : tokenize "x y z" = ["x", "y", "z"] := by decide
example : tokenize "" = [] := by decide
example : tokenize "##" = [] := by decide
example : strip "  x y " = "x y" := by decide
example : substrOf "bc" "abcd" = true := by decide
example : substrOf "ac" "abcd" = false := by decide
example : commonPrefixLen "abx".toList "aby".toList = 2 := by decide
example : parseDec "0.5" = some (1/2) := by
  have h : parseDecParts "0.5" = some (false, 0, 5, 1) := by decide
  rw [parseDec, h]
  norm_num

example : parseDec "-2" = some (-2) := by
  have h : parseDecParts "-2" = some (true, 2, 0, 0) := by decide
  rw [parseDec, h]
  norm_num

example : parseDec "x1" = none := by
  have h : parseDecParts "x1" = none := by decide
  rw [parseDec, h]
  rfl

-- `matchTotal` regression checks against CPython's
-- `sum(b.size for b in SequenceMatcher(None, a, b).get_matching_blocks())`.
example : matchTotal "abcd".toList "bcda".toList = 3 := by decide
set_option maxRecDepth 4000 in
example : matchTotal "corp".toList "corporation".toList = 4 := by decide
example : matchTotal "hello".toList "hlelo".toList = 4 := by decide
example : matchTotal "acme".toList "acne".toList = 3 := by decide
example : matchTotal "xy".toList "yx".toList = 1 := by decide
set_option maxRecDepth 8000 in
example : matchTotal "mississippi".toList "misisipi".toList = 8 := by decide

end SanityChecks
